import Mathlib

/-!
Verification development for the vista-admin enhanced YOLO detection service
(`python-backend/yolo_detection_service_enhanced.py`).

Shallow embedding conventions:
* Python floats are modelled as exact rationals (`ℚ`); float literals such as
  `0.8`, `0.5`, `0.10`, `0.08` are taken at their decimal value.
* Python dictionaries (`tracked_people`, `zones`, the LLM cooldown ledgers) are
  modelled as association lists with first-match lookup and in-place update,
  matching CPython dict semantics (insertion order preserved, update keeps the
  key's position).
* `time.time()` timestamps are rationals.
* The counting engine additionally returns an explicit event trace
  (`Ev.entry`/`Ev.exit`): one event per entry/exit log line and counter bump of
  the source.
* Euclidean distances in the suspicious-box associator are compared in squared
  form (`math.hypot(a,b) ≤ c·math.hypot(w,h)` iff `a²+b² ≤ c²·(w²+h²)` for
  `c ≥ 0`), which keeps every definition inside `ℚ`.
-/

namespace Vista

/-- Source `Zone` dataclass: a door rectangle (`id`, `name`, corner coordinates,
`camera_id`). -/
structure Zone where
  id : String
  name : String
  x1 : ℚ
  y1 : ℚ
  x2 : ℚ
  y2 : ℚ
  camera_id : String
  deriving Repr, DecidableEq

/-- Source `TrackedPerson` dataclass. -/
structure TrackedPerson where
  track_id : ℤ
  zone_history : List String
  frame_count : ℕ
  last_seen : ℕ
  first_zone_entry : Option String := none
  zone_entry_frame : ℕ := 0
  has_been_counted : Bool := false
  max_overlap : ℚ := 0
  deriving Repr, DecidableEq

/-- One tracked detection tuple `(track_id, x1, y1, x2, y2, confidence)` as fed
to `ZoneTracker.process_detections`. -/
structure Det where
  track_id : ℤ
  x1 : ℚ
  y1 : ℚ
  x2 : ℚ
  y2 : ℚ
  confidence : ℚ
  deriving Repr, DecidableEq

/-- Counting-engine events: the entry/exit occurrences the source logs while it
bumps the corresponding counters. -/
inductive Ev where
  | entry (tid : ℤ) (zid : String)
  | exit (tid : ℤ)
  deriving Repr, DecidableEq

/-- State of the source `ZoneTracker` (the fields the counting claims are
about; `occupancy_mode` is irrelevant to them and omitted).
`current_occupancy` is the "live" count, `persistent_occupancy` the cumulative
one. -/
structure ZoneTracker where
  zones : List Zone
  tracked_people : List (ℤ × TrackedPerson)
  entry_count : ℕ
  exit_count : ℕ
  current_occupancy : ℤ
  persistent_occupancy : ℕ
  frame_number : ℕ
  deriving Repr, DecidableEq

/-- `MINIMUM_ZONE_TIME = 5` in the source. -/
def MINIMUM_ZONE_TIME : ℕ := 5

/-- `ZONE_HISTORY_FRAMES = 30` in the source. -/
def ZONE_HISTORY_FRAMES : ℕ := 30

/-- Dict lookup: `tracked_people.get(track_id)` (first match in the
association list). -/
def lookupTrack (m : List (ℤ × TrackedPerson)) (k : ℤ) : Option TrackedPerson :=
  (m.find? (fun q => q.1 = k)).map (·.2)

/-- Dict store: `tracked_people[track_id] = person`.  Updates the existing
entry in place when the key is present (CPython keeps the key position),
otherwise appends. -/
def setTrack (m : List (ℤ × TrackedPerson)) (k : ℤ) (v : TrackedPerson) :
    List (ℤ × TrackedPerson) :=
  if m.any (fun q => q.1 = k) then
    m.map (fun q => if q.1 = k then (k, v) else q)
  else
    m ++ [(k, v)]

/-- Overlap-ratio computation of `process_detections` (lines 294–306): the
fraction of the person's box area covered by the zone; `0` on empty
intersection or degenerate person area. -/
def overlapRatio (z : Zone) (x1 y1 x2 y2 : ℚ) : ℚ :=
  let zone_x1 := min z.x1 z.x2
  let zone_y1 := min z.y1 z.y2
  let zone_x2 := max z.x1 z.x2
  let zone_y2 := max z.y1 z.y2
  let intersect_x1 := max x1 zone_x1
  let intersect_y1 := max y1 zone_y1
  let intersect_x2 := min x2 zone_x2
  let intersect_y2 := min y2 zone_y2
  if intersect_x2 ≤ intersect_x1 ∨ intersect_y2 ≤ intersect_y1 then 0
  else
    let person_area := (x2 - x1) * (y2 - y1)
    let intersection_area :=
      (intersect_x2 - intersect_x1) * (intersect_y2 - intersect_y1)
    if 0 < person_area then intersection_area / person_area else 0

/-- Source `Zone.person_in_zone_with_tolerance`: early `False` on empty
intersection, else compares the overlap ratio against `1 - tolerance`. -/
def person_in_zone_with_tolerance (z : Zone) (x1 y1 x2 y2 tolerance : ℚ) : Bool :=
  let zone_x1 := min z.x1 z.x2
  let zone_y1 := min z.y1 z.y2
  let zone_x2 := max z.x1 z.x2
  let zone_y2 := max z.y1 z.y2
  let intersect_x1 := max x1 zone_x1
  let intersect_y1 := max y1 zone_y1
  let intersect_x2 := min x2 zone_x2
  let intersect_y2 := min y2 zone_y2
  if intersect_x2 ≤ intersect_x1 ∨ intersect_y2 ≤ intersect_y1 then false
  else
    let person_area := (x2 - x1) * (y2 - y1)
    let intersection_area :=
      (intersect_x2 - intersect_x1) * (intersect_y2 - intersect_y1)
    let overlap := if 0 < person_area then intersection_area / person_area else 0
    let required_overlap := 1 - tolerance
    decide (required_overlap ≤ overlap)

/-- Modelled from the spec's words (for the refinement comparison of claim C7
only): "`person_in_zone_with_tolerance(zone, box, τ)` is
`overlap_ratio ≥ 1 − τ`". -/
def personInZoneSpecWords (z : Zone) (x1 y1 x2 y2 tolerance : ℚ) : Bool :=
  decide (1 - tolerance ≤ overlapRatio z x1 y1 x2 y2)

/-- Accumulator threaded through the per-zone loop of `process_detections`:
the person being updated, the three counters the loop can bump, and the entry
events emitted so far. -/
structure ZAcc where
  person : TrackedPerson
  ec : ℕ
  co : ℤ
  po : ℕ
  ev : List Ev
  deriving Repr, DecidableEq

/-- Body of the inner `for zone_id, zone in self.zones.items()` loop of
`process_detections` (lines 293–334): update `max_overlap_ratio`, apply the
hysteresis entry rule, maintain the residency log. `fn` is the current
`self.frame_number`. -/
def stepZone (fn : ℕ) (d : Det) (acc : ZAcc) (z : Zone) : ZAcc :=
  let r := overlapRatio z d.x1 d.y1 d.x2 d.y2
  let p0 := acc.person
  -- lines 309–311: `if overlap_ratio > person.max_overlap: person.max_overlap
  -- = overlap_ratio`, i.e. the running maximum
  let p1 := { p0 with max_overlap := max p0.max_overlap r }
  let fire : Prop :=
    p1.has_been_counted = false ∧ (0.5 : ℚ) ≤ p1.max_overlap ∧
      (0.8 : ℚ) ≤ r ∧ MINIMUM_ZONE_TIME ≤ p1.frame_count
  let acc1 : ZAcc :=
    if fire then
      { acc with person := { p1 with has_been_counted := true },
                 ec := acc.ec + 1, co := acc.co + 1, po := acc.po + 1,
                 ev := acc.ev ++ [Ev.entry d.track_id z.id] }
    else
      { acc with person := p1 }
  let p2 := acc1.person
  if (0.8 : ℚ) ≤ r ∧ (p2.zone_history = [] ∨ p2.zone_history.getLast? ≠ some z.id) then
    let p3 := { p2 with zone_history := p2.zone_history ++ [z.id] }
    let p4 :=
      if p3.first_zone_entry = none then
        { p3 with first_zone_entry := some z.id, zone_entry_frame := fn }
      else p3
    { acc1 with person := p4 }
  else acc1

/-- Fetch-or-create of `process_detections` (lines 279–287): a new
`TrackedPerson` starts with empty history, `frame_count = 0`,
`last_seen = frame_number` and the dataclass defaults. -/
def fetchPerson (st : ZoneTracker) (tid : ℤ) : TrackedPerson :=
  match lookupTrack st.tracked_people tid with
  | some p => p
  | none =>
      { track_id := tid, zone_history := [], frame_count := 0,
        last_seen := st.frame_number }

/-- History cap of `process_detections` (lines 337–338): keep only the last
`ZONE_HISTORY_FRAMES` zone ids. -/
def trimHistory (p : TrackedPerson) : TrackedPerson :=
  if ZONE_HISTORY_FRAMES < p.zone_history.length then
    { p with zone_history := p.zone_history.drop (p.zone_history.length - ZONE_HISTORY_FRAMES) }
  else p

/-- Initial accumulator of one detection's per-zone loop: the freshly bumped
person (lines 287–289) plus the tracker's counters. -/
def detAccInit (st : ZoneTracker) (d : Det) : ZAcc :=
  let p0 := fetchPerson st d.track_id
  { person := { p0 with last_seen := st.frame_number, frame_count := p0.frame_count + 1 },
    ec := st.entry_count, co := st.current_occupancy,
    po := st.persistent_occupancy, ev := [] }

/-- The per-zone loop of one detection, started from the freshly bumped person
and the tracker's counters. -/
def detAcc (st : ZoneTracker) (d : Det) : ZAcc :=
  st.zones.foldl (stepZone st.frame_number d) (detAccInit st d)

/-- Body of the outer `for track_id, x1, y1, x2, y2, confidence in
tracked_detections` loop (lines 275–338): fetch-or-create the tracked person,
bump `frame_count`/`last_seen`, run the per-zone loop, trim the zone history,
store the person back. Returns the new tracker state plus the entry events of
this detection. -/
def stepDet (st : ZoneTracker) (d : Det) : ZoneTracker × List Ev :=
  let acc := detAcc st d
  ({ st with tracked_people := setTrack st.tracked_people d.track_id (trimHistory acc.person),
             entry_count := acc.ec, current_occupancy := acc.co,
             persistent_occupancy := acc.po }, acc.ev)

/-- Predicate of the stale-track cleanup: `self.frame_number - person.last_seen
> 30` (line 343). `last_seen` never exceeds `frame_number` in reachable states;
natural subtraction agrees with Python's on those, and both sides call the
track non-stale elsewhere. -/
def isStale (fn : ℕ) (q : ℤ × TrackedPerson) : Bool :=
  decide (30 < fn - q.2.last_seen)

/-- The stale tracks that were previously counted: exactly those whose removal
emits an exit event (lines 346–348). -/
def staleCounted (fn : ℕ) (m : List (ℤ × TrackedPerson)) : List (ℤ × TrackedPerson) :=
  (m.filter (isStale fn)).filter (fun q => q.2.has_been_counted)

/-- Stale-track sweep of `process_detections` (lines 340–358): remove every
track not seen for more than 30 frames; each removed track that
`has_been_counted` bumps `exit_count` and decrements `current_occupancy`
clamped at `0`. Returns the exit events. -/
def sweep (st : ZoneTracker) : ZoneTracker × List Ev :=
  let exitEvs := (staleCounted st.frame_number st.tracked_people).map (fun q => Ev.exit q.1)
  ({ st with
      tracked_people := st.tracked_people.filter (fun q => ! isStale st.frame_number q),
      exit_count := st.exit_count + exitEvs.length,
      current_occupancy := exitEvs.foldl (fun c _ => max 0 (c - 1)) st.current_occupancy },
   exitEvs)

/-- The per-detection loop of `process_detections`, accumulating entry
events. -/
def detLoop (st : ZoneTracker) (dets : List Det) : ZoneTracker × List Ev :=
  dets.foldl
    (fun (acc : ZoneTracker × List Ev) d =>
      let r := stepDet acc.1 d
      (r.1, acc.2 ++ r.2))
    (st, [])

/-- Source `ZoneTracker.process_detections`: bump `frame_number`, run the
per-detection loop, then the stale sweep. Returns the new state and the
entry/exit events of this frame in emission order. -/
def processDetections (st : ZoneTracker) (dets : List Det) : ZoneTracker × List Ev :=
  let loop := detLoop { st with frame_number := st.frame_number + 1 } dets
  let sw := sweep loop.1
  (sw.1, loop.2 ++ sw.2)

/-- The `ZoneTracker.__init__` state. -/
def initTracker : ZoneTracker :=
  { zones := [], tracked_people := [], entry_count := 0, exit_count := 0,
    current_occupancy := 0, persistent_occupancy := 0, frame_number := 0 }

/-- `POST /occupancy/reset`: zero the four counters and clear the track map
(`frame_number` and the zones are untouched). -/
def resetOccupancy (st : ZoneTracker) : ZoneTracker :=
  { st with entry_count := 0, exit_count := 0, current_occupancy := 0,
            persistent_occupancy := 0, tracked_people := [] }

/-- Input record of one element of `ZoneUpdateRequest.zones`
(`zone_data.get("camera_id", "")` supplies the default). -/
structure ZoneData where
  id : String
  name : String
  x1 : ℚ
  y1 : ℚ
  x2 : ℚ
  y2 : ℚ
  camera_id : Option String := none
  deriving Repr, DecidableEq

/-- Dict store for the zones dict, same CPython semantics as `setTrack`. -/
def setZone (m : List Zone) (z : Zone) : List Zone :=
  if m.any (fun q => q.id = z.id) then
    m.map (fun q => if q.id = z.id then z else q)
  else
    m ++ [z]

/-- Source `ZoneTracker.update_zones`: clear the zones dict, then insert a
`Zone` per input record keyed by its `id`. -/
def update_zones (st : ZoneTracker) (zones_data : List ZoneData) : ZoneTracker :=
  { st with
      zones := zones_data.foldl
        (fun m zd =>
          setZone m
            { id := zd.id, name := zd.name, x1 := zd.x1, y1 := zd.y1,
              x2 := zd.x2, y2 := zd.y2, camera_id := zd.camera_id.getD "" })
        [] }

/-- `POST /zones/update` handler: calls `update_zones(request.zones)`; the
request's `camera_id` is only echoed in the response message. -/
structure ZoneUpdateRequest where
  zones : List ZoneData
  camera_id : String
  deriving Repr, DecidableEq

/-- State transition of the `/zones/update` endpoint. -/
def updateZonesEndpoint (st : ZoneTracker) (req : ZoneUpdateRequest) : ZoneTracker :=
  update_zones st req.zones

/-- Response of `GET /zones/{camera_id}`: the echoed camera id, the list of
configured zones (id, name and corners), and their count. -/
structure ZonesResponse where
  camera_id : String
  zones : List (String × String × ℚ × ℚ × ℚ × ℚ)
  zones_count : ℕ
  deriving Repr, DecidableEq

/-- Source `get_zones` endpoint: iterates the global zones dict, ignoring the
path parameter except to echo it. -/
def getZones (st : ZoneTracker) (camera_id : String) : ZonesResponse :=
  { camera_id := camera_id,
    zones := st.zones.map (fun z => (z.id, z.name, z.x1, z.y1, z.x2, z.y2)),
    zones_count := (st.zones.map (fun z => (z.id, z.name, z.x1, z.y1, z.x2, z.y2))).length }

/-- Reachable counting states: the initial tracker followed by any interleaving
of processed frames, zone updates and occupancy resets. -/
inductive Reach : ZoneTracker → Prop
  | init : Reach initTracker
  | frame {st} (dets : List Det) : Reach st → Reach (processDetections st dets).1
  | zones {st} (req : ZoneUpdateRequest) : Reach st → Reach (updateZonesEndpoint st req)
  | reset {st} : Reach st → Reach (resetOccupancy st)

/-- A multi-frame run of the counting engine, concatenating the event
traces. -/
def runFrames (st : ZoneTracker) (frames : List (List Det)) : ZoneTracker × List Ev :=
  frames.foldl
    (fun (acc : ZoneTracker × List Ev) f =>
      let r := processDetections acc.1 f
      (r.1, acc.2 ++ r.2))
    (st, [])

/-- The `has_been_counted` flag of an optional person (`false` when absent). -/
def flagOf (m : Option TrackedPerson) : Bool :=
  match m with
  | some p => p.has_been_counted
  | none => false

/-- The `frame_count` of an optional person (`0` when absent). -/
def frameCountOf (m : Option TrackedPerson) : ℕ :=
  match m with
  | some p => p.frame_count
  | none => 0

/-- Number of entry events for a given track in a trace. -/
def entriesFor (t : ℤ) (ev : List Ev) : ℕ :=
  ev.countP (fun e => match e with | Ev.entry tid _ => decide (tid = t) | _ => false)

/-- Number of exit events for a given track in a trace. -/
def exitsFor (t : ℤ) (ev : List Ev) : ℕ :=
  ev.countP (fun e => match e with | Ev.exit tid => decide (tid = t) | _ => false)

/-- Number of currently tracked people whose `has_been_counted` flag is set. -/
def countedCount (m : List (ℤ × TrackedPerson)) : ℕ :=
  m.countP (fun q => q.2.has_been_counted)

/-- The track-id keys of the map are pairwise distinct (always true of a
Python dict). -/
def keysNodup (m : List (ℤ × TrackedPerson)) : Prop :=
  (m.map Prod.fst).Nodup

/-- Track ids appearing in a frame's detections. -/
def detIds (dets : List Det) : List ℤ :=
  dets.map (fun d => d.track_id)

/-! ### LLM adjudicator: cooldown gates (`detect_people`, lines 940–1012)

Python dicts with `.get(k, default)` / `.setdefault` / assignment are embedded
as association lists with first-match lookup; `time.time()` values and float
timestamps are rationals.  The environment-variable defaults are in force:
`LLM_COOLDOWN_SECONDS = 10` and `LLM_PER_TRACK_COOLDOWN_SECONDS` equal to it. -/

def LLM_COOLDOWN_SECONDS : ℚ := 10

def LLM_PER_TRACK_COOLDOWN_SECONDS : ℚ := 10

/-- `d.get(k, dflt)` for an association-list embedding of a dict. -/
def mget {α β : Type} [DecidableEq α] (dflt : β) (l : List (α × β)) (k : α) : β :=
  (((l.find? (fun p => p.1 = k)).map (fun p => p.2)).getD dflt)

/-- `d[k] = v`: replace the entry in place if the key is present, else append. -/
def mset {α β : Type} [DecidableEq α] (l : List (α × β)) (k : α) (v : β) : List (α × β) :=
  if l.any (fun p => p.1 = k) then l.map (fun p => if p.1 = k then (k, v) else p)
  else l ++ [(k, v)]

/-- `d.setdefault(k, dflt)`'s effect on the outer dict. -/
def mensure {α β : Type} [DecidableEq α] (l : List (α × β)) (k : α) (dflt : β) :
    List (α × β) :=
  if l.any (fun p => p.1 = k) then l else l ++ [(k, dflt)]

/-- A suspicious-model bounding box (`BoundingBox` with optional label and
track association). -/
structure BBox where
  x1 : ℚ
  y1 : ℚ
  x2 : ℚ
  y2 : ℚ
  confidence : ℚ
  label : Option String
  track_id : Option ℤ

/-- `request.stream_id or "default"` (`None` and the empty string are falsy). -/
def streamKeyOf : Option String → String
  | none => "default"
  | some s => if s = "" then "default" else s

/-- `_area`: clamped box area used to pick the LLM candidate. -/
def boxArea (b : BBox) : ℚ := max 0 (b.x2 - b.x1) * max 0 (b.y2 - b.y1)

/-- Python `max(_, key=_area)`: first maximal element (later elements replace
the current best only on strict improvement). -/
def bestCand : List BBox → Option BBox
  | [] => none
  | b :: rest => some (rest.foldl (fun best c => if boxArea best < boxArea c then c else best) b)

/-- `boxes_pref`: boxes with an assigned track id, or all boxes if none has one. -/
def prefBoxesOf (r_all : List BBox) : List BBox :=
  if (r_all.filter (fun b => b.track_id.isSome)).isEmpty then r_all
  else r_all.filter (fun b => b.track_id.isSome)

/-- Stable insertion step for the descending-by-confidence sort. -/
def insertDesc (b : BBox) : List BBox → List BBox
  | [] => [b]
  | a :: rest => if a.confidence ≤ b.confidence then b :: a :: rest else a :: insertDesc b rest

/-- `sorted(_, key=confidence, reverse=True)`: stable descending sort. -/
def sortByConfDesc : List BBox → List BBox
  | [] => []
  | b :: rest => insertDesc b (sortByConfDesc rest)

/-- `(b.label or 'object')`. -/
def labelOf (b : BBox) : String :=
  match b.label with
  | none => "object"
  | some s => if s = "" then "object" else s

/-- Two-decimal rendering of `q * 100` rounded half-to-even, as Python's
`f"{conf:.2f}"` does on the embedded rational confidences. -/
def round2 (q : ℚ) : ℤ :=
  let r : ℤ := ⌊q * 100⌋
  let frac : ℚ := q * 100 - r
  if 1/2 < frac then r + 1
  else if frac < 1/2 then r
  else if r % 2 = 0 then r else r + 1

def fmt2 (q : ℚ) : String :=
  let n := round2 q
  let sgn := if n < 0 then "-" else ""
  let m := n.natAbs
  let fr := m % 100
  sgn ++ toString (m / 100) ++ "." ++ (if fr < 10 then "0" ++ toString fr else toString fr)

/-- One summary item: `f"{label} ({conf:.2f})"`. -/
def partOf (b : BBox) : String := labelOf b ++ " (" ++ fmt2 b.confidence ++ ")"

/-- `s_boxes_ui or s_boxes_all` (empty list is falsy). -/
def summaryBoxes (ui allB : List BBox) : List BBox := if ui.isEmpty then allB else ui

/-- The cooldown summary: top three boxes by confidence, `", "`-joined; `none`
when there is nothing to report (then `llm_reason` is left untouched). -/
def summaryFor (pre : String) (l : List BBox) : Option String :=
  if ((sortByConfDesc l).take 3).isEmpty then none
  else some (pre ++ String.intercalate ", " (((sortByConfDesc l).take 3).map partOf))

/-- The two module-level cooldown ledgers
(`llm_last_trigger : Dict[str, float]` and
`llm_last_trigger_by_track : Dict[str, Dict[int, float]]`). -/
structure LlmState where
  llm_last_trigger : List (String × ℚ)
  llm_last_trigger_by_track : List (String × List (ℤ × ℚ))

def llmInit : LlmState := { llm_last_trigger := [], llm_last_trigger_by_track := [] }

/-- The inputs of one `/detect` request that the LLM gating logic reads. -/
structure LlmReq where
  stream_id : Option String
  now : ℚ
  has_api_key : Bool
  auto_on_threat : Bool
  llm_enabled : Bool
  s_boxes_all : List BBox
  s_boxes_ui : List BBox

/-- `best_track_id` for a request: the track id of the largest preferred box. -/
def bestTrackIdOf (r : LlmReq) : Option ℤ :=
  (bestCand (prefBoxesOf r.s_boxes_all)).bind (fun b => b.track_id)

/-- The observable outcome of the gate region: updated ledgers, whether an
outbound LLM call was issued, and the `llm_error` / `llm_reason` strings it
produced (both `None` on entry). -/
structure LlmOut where
  state : LlmState
  triggered : Bool
  llm_error : Option String
  llm_reason : Option String

/-- `should_run_llm = bool(api_key) and (LLM_AUTO_ON_THREAT or llm_enabled)`. -/
def llmShould0 (r : LlmReq) : Bool :=
  r.has_api_key && (r.auto_on_threat || r.llm_enabled)

/-- `t_last = track_dict.get(int(best_track_id), 0.0)` (0 when there is no
candidate track). -/
def llmTLast (st : LlmState) (r : LlmReq) : ℚ :=
  match bestTrackIdOf r with
  | some i => mget 0 (mget [] st.llm_last_trigger_by_track (streamKeyOf r.stream_id)) i
  | none => 0

/-- The per-track gate fires (it is only consulted when the call is still on
and a candidate track id exists). -/
def llmBlocked1 (st : LlmState) (r : LlmReq) : Bool :=
  (llmShould0 r && (bestTrackIdOf r).isSome)
    && decide (r.now - llmTLast st r < LLM_PER_TRACK_COOLDOWN_SECONDS)

/-- `last_ts = llm_last_trigger.get(stream_key, 0.0)`. -/
def llmLastS (st : LlmState) (r : LlmReq) : ℚ :=
  mget 0 st.llm_last_trigger (streamKeyOf r.stream_id)

/-- The per-stream gate fires (it is evaluated unconditionally). -/
def llmBlocked2 (st : LlmState) (r : LlmReq) : Bool :=
  decide (r.now - llmLastS st r < LLM_COOLDOWN_SECONDS)

/-- `should_run_llm and s_boxes_all` after both gates: an outbound LLM call is
issued. -/
def llmCall (st : LlmState) (r : LlmReq) : Bool :=
  ((llmShould0 r && !llmBlocked1 st r) && !llmBlocked2 st r) && !r.s_boxes_all.isEmpty

/-- Lines 950–1012 of `detect_people`: compute `should_run_llm`, apply the
per-track gate (which also performs the `setdefault`), then the per-stream
gate (evaluated unconditionally, overwriting `llm_error_msg`), and finally —
if still on — write both cooldown timestamps at attempt time and issue the
call.  No notion of call success appears: the timestamps are written before
the HTTP request is made. -/
def llmStep (st : LlmState) (r : LlmReq) : LlmOut :=
  let key := streamKeyOf r.stream_id
  let tid := bestTrackIdOf r
  let sb := summaryBoxes r.s_boxes_ui r.s_boxes_all
  let remT : ℤ := ⌊max 0 (LLM_PER_TRACK_COOLDOWN_SECONDS - (r.now - llmTLast st r))⌋
  let err1 : Option String :=
    if llmBlocked1 st r then
      some ("per-track cooldown active: " ++ toString remT ++ "s remaining")
    else none
  let reason1 : Option String :=
    if llmBlocked1 st r then summaryFor "Cooldown (track): detected " sb else none
  let remS : ℤ := ⌊max 0 (LLM_COOLDOWN_SECONDS - (r.now - llmLastS st r))⌋
  let err2 := if llmBlocked2 st r then
      some ("cooldown active: " ++ toString remS ++ "s remaining")
    else err1
  let reason2 :=
    if llmBlocked2 st r then
      match summaryFor "Cooldown: detected " sb with
      | some s => some s
      | none => reason1
    else reason1
  let bt1 := if llmShould0 r && tid.isSome then
      mensure st.llm_last_trigger_by_track key ([] : List (ℤ × ℚ))
    else st.llm_last_trigger_by_track
  let trig := if llmCall st r then mset st.llm_last_trigger key r.now else st.llm_last_trigger
  let bt2 :=
    if llmCall st r then
      match tid with
      | some i => mset bt1 key (mset (mget [] bt1 key) i r.now)
      | none => bt1
    else bt1
  { state := { llm_last_trigger := trig, llm_last_trigger_by_track := bt2 },
    triggered := llmCall st r, llm_error := err2, llm_reason := reason2 }

/-- The ledger state after a sequence of `/detect` requests. -/
def llmRunState (st : LlmState) (rs : List LlmReq) : LlmState :=
  rs.foldl (fun s r => (llmStep s r).state) st

/-- Ledger states reachable from process start (both dicts empty). -/
inductive LlmReach : LlmState → Prop
  | init : LlmReach llmInit
  | step (r : LlmReq) {st : LlmState} : LlmReach st → LlmReach (llmStep st r).state

/-- Every per-track cooldown timestamp is bounded by its stream's per-stream
timestamp (they are only ever written together, to the same `now_ts`). -/
def TrackLeStream (st : LlmState) : Prop :=
  ∀ k i, mget 0 (mget [] st.llm_last_trigger_by_track k) i ≤ mget 0 st.llm_last_trigger k

/-- The per-track gate fires: the candidate has a track id whose last trigger
is within the per-track cooldown. -/
def perTrackBlocked (st : LlmState) (r : LlmReq) : Prop :=
  ∃ i, bestTrackIdOf r = some i ∧
    r.now - mget 0 (mget [] st.llm_last_trigger_by_track (streamKeyOf r.stream_id)) i
      < LLM_PER_TRACK_COOLDOWN_SECONDS

/-- The per-stream gate fires. -/
def perStreamBlocked (st : LlmState) (r : LlmReq) : Prop :=
  r.now - mget 0 st.llm_last_trigger (streamKeyOf r.stream_id) < LLM_COOLDOWN_SECONDS

/-! ### Suspicious-box ↔ person-track association (`assign_track`, lines 893–935)

Euclidean distances (`math.hypot`) are compared through their squares, which
is order-isomorphic on nonnegative reals, so the embedding carries
`min_dist²` and compares it against `THREAT_ASSOC_MAX_DIST_FRAC² · (w² + h²)`
instead of `min_dist ≤ frac · diagonal`.  Python's `inf` initial `min_dist`
is `none`. -/

def THREAT_ASSOC_IOU_MIN : ℚ := 1/10

def THREAT_ASSOC_MAX_DIST_FRAC : ℚ := 2/25

/-- Source `_iou`: intersection-over-union of two xyxy boxes. -/
def iouXY (ax1 ay1 ax2 ay2 bx1 by1 bx2 by2 : ℚ) : ℚ :=
  let ix1 := max ax1 bx1
  let iy1 := max ay1 by1
  let ix2 := min ax2 bx2
  let iy2 := min ay2 by2
  let iw := max 0 (ix2 - ix1)
  let ih := max 0 (iy2 - iy1)
  let inter := iw * ih
  if inter ≤ 0 then 0
  else
    let a_area := max 0 (ax2 - ax1) * max 0 (ay2 - ay1)
    let b_area := max 0 (bx2 - bx1) * max 0 (by2 - by1)
    let denom := a_area + b_area - inter
    if 0 < denom then inter / denom else 0

/-- One entry of the `persons` list: `(pid, px1, py1, px2, py2)` with a
non-`None` track id. -/
structure PersonT where
  pid : ℤ
  x1 : ℚ
  y1 : ℚ
  x2 : ℚ
  y2 : ℚ

def centerOf (x1 y1 x2 y2 : ℚ) : ℚ × ℚ := ((x1 + x2) / 2, (y1 + y2) / 2)

def distSq (a b : ℚ × ℚ) : ℚ := (a.1 - b.1) ^ 2 + (a.2 - b.2) ^ 2

def iouB (b : BBox) (p : PersonT) : ℚ :=
  iouXY b.x1 b.y1 b.x2 b.y2 p.x1 p.y1 p.x2 p.y2

def distSqB (b : BBox) (p : PersonT) : ℚ :=
  distSq (centerOf b.x1 b.y1 b.x2 b.y2) (centerOf p.x1 p.y1 p.x2 p.y2)

/-- The loop state of `assign_track`: `best_iou` starts at `0.0`, `best_pid`
and `nearest_pid` at `None`, `min_dist` at `inf` (`none`). -/
structure AssignAcc where
  best_iou : ℚ
  best_pid : Option ℤ
  min_dist_sq : Option ℚ
  nearest_pid : Option ℤ

/-- `if iou_val > best_iou: best_iou, best_pid = iou_val, pid`. -/
def stepIoU (b : BBox) (acc : AssignAcc) (p : PersonT) : AssignAcc :=
  if acc.best_iou < iouB b p then
    { acc with best_iou := iouB b p, best_pid := some p.pid }
  else acc

/-- `if d < min_dist: min_dist, nearest_pid = d, pid` (squared distances). -/
def stepDist (b : BBox) (acc : AssignAcc) (p : PersonT) : AssignAcc :=
  match acc.min_dist_sq with
  | none => { acc with min_dist_sq := some (distSqB b p), nearest_pid := some p.pid }
  | some m =>
      if distSqB b p < m then
        { acc with min_dist_sq := some (distSqB b p), nearest_pid := some p.pid }
      else acc

def assignStep (b : BBox) (acc : AssignAcc) (p : PersonT) : AssignAcc :=
  stepDist b (stepIoU b acc p) p

/-- The initial loop state of `assign_track`. -/
def assignInit : AssignAcc :=
  { best_iou := 0, best_pid := none, min_dist_sq := none, nearest_pid := none }

/-- `assign_track`: the id assigned to the suspicious box, if any — IoU
argmax accepted at `THREAT_ASSOC_IOU_MIN`, else nearest center within
`THREAT_ASSOC_MAX_DIST_FRAC` of the frame diagonal, else nothing. -/
def assign_track (b : BBox) (persons : List PersonT) (width height : ℚ) : Option ℤ :=
  let acc := persons.foldl (assignStep b) assignInit
  if acc.best_pid.isSome && decide (THREAT_ASSOC_IOU_MIN ≤ acc.best_iou) then acc.best_pid
  else
    match acc.nearest_pid, acc.min_dist_sq with
    | some pid, some m =>
        if m ≤ THREAT_ASSOC_MAX_DIST_FRAC ^ 2 * (width ^ 2 + height ^ 2) then some pid
        else none
    | _, _ => none

/-! ### `/detect` decode-failure path (`decode_base64_image` lines 623–635,
`detect_people` lines 802–832 and 1148–1150)

The effectful primitives (`base64.b64decode` + `cv2.imdecode`, and the YOLO
tracker producing the frame's tracked detections) are oracles passed in as
functions; raising is `Except.error`.  `HTTPException(status_code, detail)`
is the pair `(status, detail)`. -/

/-- `if "," in image_data: image_data = image_data.split(",", 1)[1]`. -/
def dataUrlStrip (image_data : String) : String :=
  let parts := image_data.splitOn ","
  if 1 < parts.length then String.intercalate "," parts.tail else image_data

/-- Source `decode_base64_image`: strip a data-URL prefix, decode; any
exception is re-raised as `ValueError("Failed to decode image: {e}")`. -/
def decode_base64_image {Img : Type} (raw : String → Except String Img)
    (image_data : String) : Except String Img :=
  match raw (dataUrlStrip image_data) with
  | Except.ok img => Except.ok img
  | Except.error e => Except.error ("Failed to decode image: " ++ e)

/-- The `/detect` endpoint's state effect and response: decode the image,
then run the tracker and `zone_tracker.process_detections`; any exception
surfaces as `HTTPException(500, "Detection failed: {e}")`, and a failure
before `process_detections` leaves the counting state untouched. -/
def detect_people {Img : Type} (raw : String → Except String Img)
    (infer : Img → List Det) (st : ZoneTracker) (image_data : String) :
    Except (ℕ × String) (ZoneTracker × List Ev) × ZoneTracker :=
  match decode_base64_image raw image_data with
  | Except.error e => (Except.error (500, "Detection failed: " ++ e), st)
  | Except.ok img =>
      let out := processDetections st (infer img)
      (Except.ok out, out.1)

/-- The entry-rule condition of lines 313–316, expressed over the state the
person had before this zone iteration (`max_overlap_ratio` is compared after
the line-309 update, i.e. against `max old r`). -/
def fireCond (d : Det) (acc : ZAcc) (z : Zone) : Prop :=
  acc.person.has_been_counted = false ∧
    (0.5 : ℚ) ≤ max acc.person.max_overlap (overlapRatio z d.x1 d.y1 d.x2 d.y2) ∧
    (0.8 : ℚ) ≤ overlapRatio z d.x1 d.y1 d.x2 d.y2 ∧
    MINIMUM_ZONE_TIME ≤ acc.person.frame_count

instance (d : Det) (acc : ZAcc) (z : Zone) : Decidable (fireCond d acc z) := by
  unfold fireCond; infer_instance

/-- The `max_overlap_ratio` of an optional person (`0` when absent, matching a
fresh track's initial value). -/
def maxOverlapOf (m : Option TrackedPerson) : ℚ :=
  match m with
  | some p => p.max_overlap
  | none => 0

/-- Inductive invariant of the counting engine: the persistent counter mirrors
`entry_count`, the live counter is exactly `entry_count − exit_count`, the
difference is the number of currently tracked counted people, and the dict
keys are distinct. -/
def Inv (st : ZoneTracker) : Prop :=
  st.persistent_occupancy = st.entry_count ∧
  st.current_occupancy = (st.entry_count : ℤ) - (st.exit_count : ℤ) ∧
  st.entry_count = st.exit_count + countedCount st.tracked_people ∧
  keysNodup st.tracked_people

/-- The tracker state after the per-detection loop of a frame, before the
stale sweep. -/
def midState (st : ZoneTracker) (dets : List Det) : ZoneTracker :=
  (detLoop { st with frame_number := st.frame_number + 1 } dets).1

/-- The lifetime side condition of claim C3: during the run, the track is
never removed except possibly by the very last frame (the spec's "sequence of
processed frames between the track's creation and its removal"). -/
def NoMidRemoval (t : ℤ) : ZoneTracker → List (List Det) → Prop
  | _, [] => True
  | st, f :: fs =>
      (fs ≠ [] → lookupTrack (processDetections st f).1.tracked_people t = none →
        lookupTrack st.tracked_people t = none) ∧
      NoMidRemoval t (processDetections st f).1 fs

/-! ### Association-list lemmas -/

theorem lookupTrack_nil (k : ℤ) : lookupTrack [] k = none := rfl

theorem lookupTrack_cons (a : ℤ × TrackedPerson) (m : List (ℤ × TrackedPerson)) (k : ℤ) :
    lookupTrack (a :: m) k = if a.1 = k then some a.2 else lookupTrack m k := by
  by_cases h : a.1 = k <;> simp [lookupTrack, List.find?_cons, h]

theorem lookupTrack_eq_none (m : List (ℤ × TrackedPerson)) (k : ℤ) :
    lookupTrack m k = none ↔ ∀ q ∈ m, q.1 ≠ k := by
  induction m with
  | nil => simp [lookupTrack_nil]
  | cons a t ih =>
      rw [lookupTrack_cons]
      by_cases ha : a.1 = k <;> simp [ha, ih]

theorem any_key_eq_false (m : List (ℤ × TrackedPerson)) (k : ℤ) :
    m.any (fun q => q.1 = k) = false ↔ lookupTrack m k = none := by
  rw [lookupTrack_eq_none, List.any_eq_false]
  constructor
  · intro h q hq
    simpa using h q hq
  · intro h q hq
    simpa using h q hq

theorem lookupTrack_append (m m' : List (ℤ × TrackedPerson)) (k : ℤ)
    (h : lookupTrack m k = none) :
    lookupTrack (m ++ m') k = lookupTrack m' k := by
  induction m with
  | nil => rfl
  | cons a t ih =>
      rw [lookupTrack_cons] at h
      by_cases ha : a.1 = k
      · rw [if_pos ha] at h; exact absurd h (by simp)
      · rw [if_neg ha] at h
        rw [List.cons_append, lookupTrack_cons, if_neg ha]
        exact ih h

theorem lookupTrack_append_left (m m' : List (ℤ × TrackedPerson)) (k : ℤ) (w : TrackedPerson)
    (h : lookupTrack m k = some w) :
    lookupTrack (m ++ m') k = some w := by
  induction m with
  | nil => simp [lookupTrack_nil] at h
  | cons a t ih =>
      rw [lookupTrack_cons] at h
      by_cases ha : a.1 = k
      · rw [if_pos ha] at h
        rw [List.cons_append, lookupTrack_cons, if_pos ha]
        exact h
      · rw [if_neg ha] at h
        rw [List.cons_append, lookupTrack_cons, if_neg ha]
        exact ih h

theorem lookupTrack_replace_self (m : List (ℤ × TrackedPerson)) (k : ℤ) (v : TrackedPerson)
    (h : lookupTrack m k ≠ none) :
    lookupTrack (m.map (fun q => if q.1 = k then (k, v) else q)) k = some v := by
  induction m with
  | nil => simp [lookupTrack_nil] at h
  | cons a t ih =>
      by_cases ha : a.1 = k
      · rw [List.map_cons, if_pos ha, lookupTrack_cons, if_pos rfl]
      · rw [lookupTrack_cons, if_neg ha] at h
        rw [List.map_cons, if_neg ha, lookupTrack_cons, if_neg ha]
        exact ih h

theorem lookupTrack_replace_ne (m : List (ℤ × TrackedPerson)) (k k' : ℤ) (v : TrackedPerson)
    (h : k' ≠ k) :
    lookupTrack (m.map (fun q => if q.1 = k then (k, v) else q)) k' = lookupTrack m k' := by
  induction m with
  | nil => rfl
  | cons a t ih =>
      by_cases ha : a.1 = k
      · have h1 : ¬ (k = k') := fun hh => h hh.symm
        have h2 : ¬ (a.1 = k') := by rw [ha]; exact h1
        rw [List.map_cons, if_pos ha, lookupTrack_cons, lookupTrack_cons,
          if_neg h1, if_neg h2]
        exact ih
      · rw [List.map_cons, if_neg ha, lookupTrack_cons, lookupTrack_cons]
        by_cases ha' : a.1 = k'
        · rw [if_pos ha', if_pos ha']
        · rw [if_neg ha', if_neg ha']
          exact ih

theorem lookupTrack_setTrack_self (m : List (ℤ × TrackedPerson)) (k : ℤ) (v : TrackedPerson) :
    lookupTrack (setTrack m k v) k = some v := by
  rw [setTrack]
  by_cases hm : (m.any (fun q => q.1 = k)) = true
  · rw [if_pos hm]
    refine lookupTrack_replace_self m k v fun hn => ?_
    rw [(any_key_eq_false m k).mpr hn] at hm
    exact Bool.false_ne_true hm
  · rw [if_neg hm]
    rw [lookupTrack_append m _ k ((any_key_eq_false m k).mp (Bool.eq_false_iff.mpr hm))]
    rw [lookupTrack_cons, if_pos rfl]

theorem lookupTrack_setTrack_ne (m : List (ℤ × TrackedPerson)) (k k' : ℤ) (v : TrackedPerson)
    (h : k' ≠ k) : lookupTrack (setTrack m k v) k' = lookupTrack m k' := by
  rw [setTrack]
  by_cases hm : (m.any (fun q => q.1 = k)) = true
  · rw [if_pos hm]
    exact lookupTrack_replace_ne m k k' v h
  · rw [if_neg hm]
    cases hk : lookupTrack m k' with
    | none =>
        rw [lookupTrack_append m _ k' hk, lookupTrack_cons,
          if_neg (fun hh => h hh.symm), lookupTrack_nil]
    | some w => rw [lookupTrack_append_left m _ k' w hk]

theorem map_replace_id (m : List (ℤ × TrackedPerson)) (k : ℤ) (v : TrackedPerson)
    (h : ∀ q ∈ m, ¬ q.1 = k) :
    m.map (fun q => if q.1 = k then (k, v) else q) = m := by
  induction m with
  | nil => rfl
  | cons a t ih =>
      rw [List.map_cons, if_neg (h a (List.mem_cons_self a t)),
        ih fun q hq => h q (List.mem_cons_of_mem a hq)]

theorem keys_replace (m : List (ℤ × TrackedPerson)) (k : ℤ) (v : TrackedPerson) :
    (m.map (fun q => if q.1 = k then (k, v) else q)).map Prod.fst = m.map Prod.fst := by
  induction m with
  | nil => rfl
  | cons a t ih =>
      rw [List.map_cons, List.map_cons, List.map_cons, ih]
      by_cases ha : a.1 = k
      · rw [if_pos ha, ha]
      · rw [if_neg ha]

theorem keysNodup_setTrack (m : List (ℤ × TrackedPerson)) (k : ℤ) (v : TrackedPerson)
    (h : keysNodup m) : keysNodup (setTrack m k v) := by
  rw [setTrack]
  by_cases hm : (m.any (fun q => q.1 = k)) = true
  · rw [if_pos hm]
    unfold keysNodup
    rw [keys_replace]
    exact h
  · rw [if_neg hm]
    unfold keysNodup at h ⊢
    rw [List.map_append]
    have hk : ∀ q ∈ m, q.1 ≠ k :=
      (lookupTrack_eq_none m k).mp ((any_key_eq_false m k).mp (Bool.eq_false_iff.mpr hm))
    refine List.Nodup.append h (List.nodup_singleton k) ?_
    intro x hx hy
    simp only [List.map_cons, List.map_nil, List.mem_singleton] at hy
    rcases List.mem_map.mp hx with ⟨q, hq, rfl⟩
    exact hk q hq hy

theorem keysNodup_filter (m : List (ℤ × TrackedPerson)) (pr : ℤ × TrackedPerson → Bool)
    (h : keysNodup m) : keysNodup (m.filter pr) := by
  unfold keysNodup at h ⊢
  exact List.Nodup.sublist (List.Sublist.map Prod.fst (List.filter_sublist m)) h

theorem countP_replace (m : List (ℤ × TrackedPerson)) (k : ℤ) (v w : TrackedPerson)
    (p : ℤ × TrackedPerson → Bool) (hnd : keysNodup m) (h : lookupTrack m k = some w) :
    (m.map (fun q => if q.1 = k then (k, v) else q)).countP p + (if p (k, w) then 1 else 0)
      = m.countP p + (if p (k, v) then 1 else 0) := by
  induction m with
  | nil => simp [lookupTrack_nil] at h
  | cons a t ih =>
      unfold keysNodup at hnd
      rw [List.map_cons, List.nodup_cons] at hnd
      rw [lookupTrack_cons] at h
      by_cases ha : a.1 = k
      · rw [if_pos ha] at h
        have haw : a = (k, w) := by
          cases a with
          | mk a1 a2 => cases h; cases ha; rfl
        rw [List.map_cons, if_pos ha,
          map_replace_id t k v
            (fun q hq hqk => hnd.1 (by rw [ha, ← hqk]; exact List.mem_map_of_mem Prod.fst hq))]
        rw [List.countP_cons, List.countP_cons, haw]
        omega
      · rw [if_neg ha] at h
        rw [List.map_cons, if_neg ha, List.countP_cons, List.countP_cons]
        have := ih hnd.2 h
        omega

theorem countP_setTrack_present (m : List (ℤ × TrackedPerson)) (k : ℤ) (v w : TrackedPerson)
    (p : ℤ × TrackedPerson → Bool) (hnd : keysNodup m) (h : lookupTrack m k = some w) :
    (setTrack m k v).countP p + (if p (k, w) then 1 else 0)
      = m.countP p + (if p (k, v) then 1 else 0) := by
  rw [setTrack]
  by_cases hm : (m.any (fun q => q.1 = k)) = true
  · rw [if_pos hm]
    exact countP_replace m k v w p hnd h
  · exact absurd ((any_key_eq_false m k).mp (Bool.eq_false_iff.mpr hm)) (by rw [h]; simp)

theorem countP_setTrack_absent (m : List (ℤ × TrackedPerson)) (k : ℤ) (v : TrackedPerson)
    (p : ℤ × TrackedPerson → Bool) (h : lookupTrack m k = none) :
    (setTrack m k v).countP p = m.countP p + (if p (k, v) then 1 else 0) := by
  rw [setTrack, if_neg (fun hm => by rw [(any_key_eq_false m k).mpr] at hm <;> simp_all),
    List.countP_append]
  simp [List.countP_cons]

theorem lookupTrack_filter (m : List (ℤ × TrackedPerson)) (pr : ℤ × TrackedPerson → Bool)
    (k : ℤ) (hnd : keysNodup m) :
    lookupTrack (m.filter pr) k
      = (lookupTrack m k).bind (fun w => if pr (k, w) then some w else none) := by
  induction m with
  | nil => rfl
  | cons a t ih =>
      unfold keysNodup at hnd
      rw [List.map_cons, List.nodup_cons] at hnd
      rw [List.filter_cons, lookupTrack_cons]
      by_cases ha : a.1 = k
      · rw [if_pos ha]
        have haw : a = (k, a.2) := by cases a; cases ha; rfl
        have htn : lookupTrack t k = none := by
          rw [lookupTrack_eq_none]
          intro q hq hqk
          exact hnd.1 (by rw [ha, ← hqk]; exact List.mem_map_of_mem Prod.fst hq)
        have hfn : lookupTrack (t.filter pr) k = none := by
          rw [lookupTrack_eq_none]
          intro q hq
          exact (lookupTrack_eq_none t k).mp htn q (List.mem_of_mem_filter hq)
        cases hpa : pr a with
        | true =>
            rw [if_pos rfl, lookupTrack_cons, if_pos ha]
            rw [haw] at hpa
            simp [hpa]
        | false =>
            rw [haw] at hpa
            simp [hpa, hfn]
      · rw [if_neg ha]
        cases hpa : pr a with
        | true =>
            rw [if_pos rfl, lookupTrack_cons, if_neg ha]
            exact ih hnd.2
        | false =>
            rw [if_neg (by simp)]
            exact ih hnd.2

theorem countP_filter_split (m : List (ℤ × TrackedPerson))
    (p pr : ℤ × TrackedPerson → Bool) :
    m.countP p = (m.filter pr).countP p + (m.filter (fun a => ! pr a)).countP p := by
  induction m with
  | nil => rfl
  | cons a t ih =>
      rw [List.countP_cons, List.filter_cons, List.filter_cons]
      cases hpa : pr a <;> cases hp : p a <;>
        simp [List.countP_cons, hpa, hp, ih] <;> omega

/-! ### Per-zone step lemmas -/

theorem stepZone_fields (fn : ℕ) (d : Det) (acc : ZAcc) (z : Zone) :
    (stepZone fn d acc z).person.track_id = acc.person.track_id ∧
    (stepZone fn d acc z).person.frame_count = acc.person.frame_count ∧
    (stepZone fn d acc z).person.last_seen = acc.person.last_seen ∧
    (stepZone fn d acc z).person.max_overlap
      = max acc.person.max_overlap (overlapRatio z d.x1 d.y1 d.x2 d.y2) := by
  simp only [stepZone]
  split_ifs <;> simp

theorem stepZone_fire (fn : ℕ) (d : Det) (acc : ZAcc) (z : Zone)
    (hf : fireCond d acc z) :
    (stepZone fn d acc z).ec = acc.ec + 1 ∧
    (stepZone fn d acc z).co = acc.co + 1 ∧
    (stepZone fn d acc z).po = acc.po + 1 ∧
    (stepZone fn d acc z).ev = acc.ev ++ [Ev.entry d.track_id z.id] ∧
    (stepZone fn d acc z).person.has_been_counted = true := by
  unfold fireCond at hf
  simp only [stepZone]
  rw [if_pos hf]
  split_ifs <;> simp

theorem stepZone_nofire (fn : ℕ) (d : Det) (acc : ZAcc) (z : Zone)
    (hf : ¬ fireCond d acc z) :
    (stepZone fn d acc z).ec = acc.ec ∧
    (stepZone fn d acc z).co = acc.co ∧
    (stepZone fn d acc z).po = acc.po ∧
    (stepZone fn d acc z).ev = acc.ev ∧
    (stepZone fn d acc z).person.has_been_counted = acc.person.has_been_counted := by
  unfold fireCond at hf
  simp only [stepZone]
  rw [if_neg hf]
  split_ifs <;> simp

/-- Summary of one detection's whole pass over the zones dict: stable person
fields, monotone `max_overlap_ratio`, the `has_been_counted` latch, and the
three counters moving in lockstep with the emitted entry events (at most one,
told by the flag flip). -/
theorem zoneFold_spec (fn : ℕ) (d : Det) :
    ∀ (zs : List Zone) (acc : ZAcc),
      (zs.foldl (stepZone fn d) acc).person.track_id = acc.person.track_id ∧
      (zs.foldl (stepZone fn d) acc).person.frame_count = acc.person.frame_count ∧
      (zs.foldl (stepZone fn d) acc).person.last_seen = acc.person.last_seen ∧
      acc.person.max_overlap ≤ (zs.foldl (stepZone fn d) acc).person.max_overlap ∧
      (acc.person.has_been_counted = true →
        (zs.foldl (stepZone fn d) acc).person.has_been_counted = true) ∧
      ∃ ne : List Ev,
        (zs.foldl (stepZone fn d) acc).ev = acc.ev ++ ne ∧
        (∀ e ∈ ne, ∃ zid, e = Ev.entry d.track_id zid) ∧
        ne.length = (if acc.person.has_been_counted = false ∧
            (zs.foldl (stepZone fn d) acc).person.has_been_counted = true then 1 else 0) ∧
        (zs.foldl (stepZone fn d) acc).ec = acc.ec + ne.length ∧
        (zs.foldl (stepZone fn d) acc).co = acc.co + ne.length ∧
        (zs.foldl (stepZone fn d) acc).po = acc.po + ne.length := by
  intro zs
  induction zs with
  | nil =>
      intro acc
      refine ⟨rfl, rfl, rfl, le_refl _, fun h => h, [], by simp, by simp, ?_, by simp, by simp, by simp⟩
      cases hc : acc.person.has_been_counted <;> simp [hc]
  | cons z zs ih =>
      intro acc
      rw [List.foldl_cons]
      obtain ⟨htid, hfc, hls, hmax, hlatch, ne, hev, hne, hlen, hec, hco, hpo⟩ :=
        ih (stepZone fn d acc z)
      obtain ⟨ftid, ffc, fls, fmax⟩ := stepZone_fields fn d acc z
      by_cases hfire : fireCond d acc z
      · obtain ⟨gec, gco, gpo, gev, gcnt⟩ := stepZone_fire fn d acc z hfire
        have hfin : (zs.foldl (stepZone fn d) (stepZone fn d acc z)).person.has_been_counted = true :=
          hlatch gcnt
        have hlen0 : ne.length = 0 := by
          rw [hlen, if_neg]
          rintro ⟨h1, -⟩
          rw [gcnt] at h1
          exact Bool.noConfusion h1
        refine ⟨htid.trans ftid, hfc.trans ffc, hls.trans fls,
          le_trans (le_trans (le_max_left _ _) (le_of_eq fmax.symm)) hmax,
          fun _ => hfin, Ev.entry d.track_id z.id :: ne, ?_, ?_, ?_, ?_, ?_, ?_⟩
        · rw [hev, gev]
          simp
        · intro e he
          rcases List.mem_cons.mp he with rfl | hmem
          · exact ⟨z.id, rfl⟩
          · exact hne e hmem
        · rw [List.length_cons, hlen0, if_pos ⟨hfire.1, hfin⟩]
        · rw [hec, gec]
          simp [hlen0]
        · rw [hco, gco]
          simp [hlen0]
        · rw [hpo, gpo]
          simp [hlen0]
      · obtain ⟨gec, gco, gpo, gev, gcnt⟩ := stepZone_nofire fn d acc z hfire
        refine ⟨htid.trans ftid, hfc.trans ffc, hls.trans fls,
          le_trans (le_trans (le_max_left _ _) (le_of_eq fmax.symm)) hmax,
          fun h => hlatch (by rw [gcnt]; exact h), ne, ?_, hne, ?_, ?_, ?_, ?_⟩
        · rw [hev, gev]
        · rw [hlen, gcnt]
        · rw [hec, gec]
        · rw [hco, gco]
        · rw [hpo, gpo]

/-! ### Per-detection step lemmas -/

theorem fetchPerson_flag (st : ZoneTracker) (tid : ℤ) :
    (fetchPerson st tid).has_been_counted = flagOf (lookupTrack st.tracked_people tid) := by
  unfold fetchPerson flagOf
  cases lookupTrack st.tracked_people tid <;> rfl

theorem fetchPerson_frame_count (st : ZoneTracker) (tid : ℤ) :
    (fetchPerson st tid).frame_count = frameCountOf (lookupTrack st.tracked_people tid) := by
  unfold fetchPerson frameCountOf
  cases lookupTrack st.tracked_people tid <;> rfl

theorem fetchPerson_max (st : ZoneTracker) (tid : ℤ) :
    (fetchPerson st tid).max_overlap = maxOverlapOf (lookupTrack st.tracked_people tid) := by
  unfold fetchPerson maxOverlapOf
  cases lookupTrack st.tracked_people tid <;> rfl

theorem trimHistory_fields (p : TrackedPerson) :
    (trimHistory p).track_id = p.track_id ∧
    (trimHistory p).frame_count = p.frame_count ∧
    (trimHistory p).last_seen = p.last_seen ∧
    (trimHistory p).has_been_counted = p.has_been_counted ∧
    (trimHistory p).max_overlap = p.max_overlap := by
  unfold trimHistory
  split_ifs <;> simp

theorem detAcc_spec (st : ZoneTracker) (d : Det) :
    (detAcc st d).person.frame_count = (fetchPerson st d.track_id).frame_count + 1 ∧
    (detAcc st d).person.last_seen = st.frame_number ∧
    (fetchPerson st d.track_id).max_overlap ≤ (detAcc st d).person.max_overlap ∧
    ((fetchPerson st d.track_id).has_been_counted = true →
      (detAcc st d).person.has_been_counted = true) ∧
    (∀ e ∈ (detAcc st d).ev, ∃ zid, e = Ev.entry d.track_id zid) ∧
    (detAcc st d).ev.length
      = (if (fetchPerson st d.track_id).has_been_counted = false ∧
            (detAcc st d).person.has_been_counted = true then 1 else 0) ∧
    (detAcc st d).ec = st.entry_count + (detAcc st d).ev.length ∧
    (detAcc st d).co = st.current_occupancy + (detAcc st d).ev.length ∧
    (detAcc st d).po = st.persistent_occupancy + (detAcc st d).ev.length := by
  have hip : (detAccInit st d).person.frame_count = (fetchPerson st d.track_id).frame_count + 1
    := rfl
  have hils : (detAccInit st d).person.last_seen = st.frame_number := rfl
  have him : (detAccInit st d).person.max_overlap = (fetchPerson st d.track_id).max_overlap := rfl
  have hic : (detAccInit st d).person.has_been_counted
      = (fetchPerson st d.track_id).has_been_counted := rfl
  have hie : (detAccInit st d).ev = [] := rfl
  have hiec : (detAccInit st d).ec = st.entry_count := rfl
  have hico : (detAccInit st d).co = st.current_occupancy := rfl
  have hipo : (detAccInit st d).po = st.persistent_occupancy := rfl
  unfold detAcc
  obtain ⟨htid, hfc, hls, hmax, hlatch, ne, hev, hne, hlen, hec, hco, hpo⟩ :=
    zoneFold_spec st.frame_number d st.zones (detAccInit st d)
  rw [hie, List.nil_append] at hev
  refine ⟨by rw [hfc, hip], by rw [hls, hils], by rw [← him]; exact hmax,
    fun h => hlatch (by rw [hic]; exact h), ?_, ?_, ?_, ?_, ?_⟩
  · rw [hev]; exact hne
  · rw [hev, hlen, hic]
  · rw [hec, hev, hiec]
  · rw [hco, hev, hico]
  · rw [hpo, hev, hipo]

theorem stepDet_static (st : ZoneTracker) (d : Det) :
    (stepDet st d).1.zones = st.zones ∧
    (stepDet st d).1.frame_number = st.frame_number ∧
    (stepDet st d).1.exit_count = st.exit_count :=
  ⟨rfl, rfl, rfl⟩

theorem stepDet_lookup_ne (st : ZoneTracker) (d : Det) (t : ℤ) (h : t ≠ d.track_id) :
    lookupTrack (stepDet st d).1.tracked_people t = lookupTrack st.tracked_people t :=
  lookupTrack_setTrack_ne _ _ _ _ h

theorem stepDet_lookup_self (st : ZoneTracker) (d : Det) :
    lookupTrack (stepDet st d).1.tracked_people d.track_id
      = some (trimHistory (detAcc st d).person) :=
  lookupTrack_setTrack_self _ _ _

theorem stepDet_counters (st : ZoneTracker) (d : Det) :
    (stepDet st d).1.entry_count = st.entry_count + (stepDet st d).2.length ∧
    (stepDet st d).1.current_occupancy = st.current_occupancy + (stepDet st d).2.length ∧
    (stepDet st d).1.persistent_occupancy = st.persistent_occupancy + (stepDet st d).2.length := by
  obtain ⟨-, -, -, -, -, -, hec, hco, hpo⟩ := detAcc_spec st d
  exact ⟨hec, hco, hpo⟩

theorem stepDet_events (st : ZoneTracker) (d : Det) :
    (∀ e ∈ (stepDet st d).2, ∃ zid, e = Ev.entry d.track_id zid) ∧
    (stepDet st d).2.length
      = (if flagOf (lookupTrack st.tracked_people d.track_id) = false ∧
            flagOf (lookupTrack (stepDet st d).1.tracked_people d.track_id) = true
         then 1 else 0) := by
  obtain ⟨-, -, -, -, hne, hlen, -, -, -⟩ := detAcc_spec st d
  refine ⟨hne, ?_⟩
  rw [stepDet_lookup_self st d]
  show (detAcc st d).ev.length = _
  rw [hlen, fetchPerson_flag]
  have : flagOf (some (trimHistory (detAcc st d).person))
      = (detAcc st d).person.has_been_counted := (trimHistory_fields _).2.2.2.1
  rw [this]

theorem stepDet_nodup (st : ZoneTracker) (d : Det) (h : keysNodup st.tracked_people) :
    keysNodup (stepDet st d).1.tracked_people :=
  keysNodup_setTrack _ _ _ h

theorem stepDet_countP (st : ZoneTracker) (d : Det) (h : keysNodup st.tracked_people) :
    countedCount (stepDet st d).1.tracked_people
      = countedCount st.tracked_people + (stepDet st d).2.length := by
  obtain ⟨hne, hlen⟩ := stepDet_events st d
  rw [hlen, stepDet_lookup_self st d]
  have htrim : (trimHistory (detAcc st d).person).has_been_counted
      = (detAcc st d).person.has_been_counted := (trimHistory_fields _).2.2.2.1
  obtain ⟨-, -, -, hlatch, -, -, -, -, -⟩ := detAcc_spec st d
  rw [fetchPerson_flag] at hlatch
  cases hl : lookupTrack st.tracked_people d.track_id with
  | none =>
      have hset := countP_setTrack_absent st.tracked_people d.track_id
        (trimHistory (detAcc st d).person) (fun q => q.2.has_been_counted) hl
      show (setTrack st.tracked_people d.track_id (trimHistory (detAcc st d).person)).countP _ = _
      rw [hset]
      simp only [flagOf, countedCount, htrim]
      cases hc : (detAcc st d).person.has_been_counted <;> simp [hc]
  | some w =>
      have hset := countP_setTrack_present st.tracked_people d.track_id
        (trimHistory (detAcc st d).person) w (fun q => q.2.has_been_counted) h hl
      show (setTrack st.tracked_people d.track_id (trimHistory (detAcc st d).person)).countP _ = _
      rw [hl] at hlatch
      simp only [flagOf] at hlatch
      simp only [htrim] at hset
      simp only [flagOf, countedCount, htrim]
      cases hw : w.has_been_counted with
      | true =>
          have hacc := hlatch hw
          simp [hw, hacc] at hset ⊢
          omega
      | false =>
          simp only [hw] at hset ⊢
          cases hc : (detAcc st d).person.has_been_counted <;> simp_all

theorem stepDet_track_self (st : ZoneTracker) (d : Det) :
    lookupTrack (stepDet st d).1.tracked_people d.track_id
      = some (trimHistory (detAcc st d).person) ∧
    (trimHistory (detAcc st d).person).last_seen = st.frame_number ∧
    (trimHistory (detAcc st d).person).frame_count
      = frameCountOf (lookupTrack st.tracked_people d.track_id) + 1 ∧
    maxOverlapOf (lookupTrack st.tracked_people d.track_id)
      ≤ (trimHistory (detAcc st d).person).max_overlap ∧
    (flagOf (lookupTrack st.tracked_people d.track_id) = true →
      (trimHistory (detAcc st d).person).has_been_counted = true) := by
  obtain ⟨hfc, hls, hmax, hlatch, -, -, -, -, -⟩ := detAcc_spec st d
  obtain ⟨-, tfc, tls, tcnt, tmax⟩ := trimHistory_fields (detAcc st d).person
  refine ⟨stepDet_lookup_self st d, tls.trans hls, ?_, ?_, ?_⟩
  · rw [tfc, hfc, fetchPerson_frame_count]
  · rw [tmax, ← fetchPerson_max]
    exact hmax
  · intro h
    rw [tcnt]
    exact hlatch (by rw [fetchPerson_flag]; exact h)

/-! ### Detection-loop lemmas -/

theorem entriesFor_of_all (t tid : ℤ) (evl : List Ev)
    (h : ∀ e ∈ evl, ∃ zid, e = Ev.entry tid zid) :
    entriesFor t evl = if tid = t then evl.length else 0 := by
  induction evl with
  | nil => simp [entriesFor]
  | cons e tl ih =>
      obtain ⟨zid, rfl⟩ := h e (List.mem_cons_self e tl)
      have htl := ih fun e he => h e (List.mem_cons_of_mem _ he)
      unfold entriesFor at htl ⊢
      rw [List.countP_cons]
      by_cases hdt : tid = t <;> simp [htl, hdt]

theorem exitsFor_of_all (t tid : ℤ) (evl : List Ev)
    (h : ∀ e ∈ evl, ∃ zid, e = Ev.entry tid zid) :
    exitsFor t evl = 0 := by
  induction evl with
  | nil => rfl
  | cons e tl ih =>
      obtain ⟨zid, rfl⟩ := h e (List.mem_cons_self e tl)
      have htl := ih fun e he => h e (List.mem_cons_of_mem _ he)
      unfold exitsFor at htl ⊢
      rw [List.countP_cons]
      simp [htl]

theorem entriesFor_append (t : ℤ) (a b : List Ev) :
    entriesFor t (a ++ b) = entriesFor t a + entriesFor t b := by
  unfold entriesFor
  rw [List.countP_append]

theorem exitsFor_append (t : ℤ) (a b : List Ev) :
    exitsFor t (a ++ b) = exitsFor t a + exitsFor t b := by
  unfold exitsFor
  rw [List.countP_append]

theorem detLoop_nil (st : ZoneTracker) : detLoop st [] = (st, []) := rfl

theorem detLoop_shift (dets : List Det) :
    ∀ (st : ZoneTracker) (ev0 : List Ev),
      dets.foldl
        (fun (acc : ZoneTracker × List Ev) d =>
          let r := stepDet acc.1 d
          (r.1, acc.2 ++ r.2)) (st, ev0)
      = ((detLoop st dets).1, ev0 ++ (detLoop st dets).2) := by
  induction dets with
  | nil => intro st ev0; simp [detLoop]
  | cons d ds ih =>
      intro st ev0
      show ds.foldl _ ((stepDet st d).1, ev0 ++ (stepDet st d).2) = _
      rw [ih (stepDet st d).1 (ev0 ++ (stepDet st d).2)]
      have : detLoop st (d :: ds)
          = ((detLoop (stepDet st d).1 ds).1,
             ([] ++ (stepDet st d).2) ++ (detLoop (stepDet st d).1 ds).2) := by
        show ds.foldl _ ((stepDet st d).1, [] ++ (stepDet st d).2) = _
        rw [ih (stepDet st d).1 ([] ++ (stepDet st d).2)]
      rw [this]
      simp

theorem detLoop_cons (st : ZoneTracker) (d : Det) (ds : List Det) :
    detLoop st (d :: ds)
      = ((detLoop (stepDet st d).1 ds).1,
         (stepDet st d).2 ++ (detLoop (stepDet st d).1 ds).2) := by
  show ds.foldl _ ((stepDet st d).1, [] ++ (stepDet st d).2) = _
  rw [detLoop_shift ds (stepDet st d).1 ([] ++ (stepDet st d).2)]
  simp

theorem detLoop_static (dets : List Det) :
    ∀ st : ZoneTracker,
      (detLoop st dets).1.zones = st.zones ∧
      (detLoop st dets).1.frame_number = st.frame_number ∧
      (detLoop st dets).1.exit_count = st.exit_count := by
  induction dets with
  | nil => intro st; exact ⟨rfl, rfl, rfl⟩
  | cons d ds ih =>
      intro st
      rw [detLoop_cons]
      obtain ⟨h1, h2, h3⟩ := ih (stepDet st d).1
      obtain ⟨g1, g2, g3⟩ := stepDet_static st d
      exact ⟨h1.trans g1, h2.trans g2, h3.trans g3⟩

theorem detLoop_counters (dets : List Det) :
    ∀ st : ZoneTracker,
      (detLoop st dets).1.entry_count = st.entry_count + (detLoop st dets).2.length ∧
      (detLoop st dets).1.current_occupancy
        = st.current_occupancy + (detLoop st dets).2.length ∧
      (detLoop st dets).1.persistent_occupancy
        = st.persistent_occupancy + (detLoop st dets).2.length := by
  induction dets with
  | nil => intro st; simp [detLoop_nil]
  | cons d ds ih =>
      intro st
      rw [detLoop_cons]
      obtain ⟨h1, h2, h3⟩ := ih (stepDet st d).1
      obtain ⟨g1, g2, g3⟩ := stepDet_counters st d
      refine ⟨?_, ?_, ?_⟩ <;> simp [h1, h2, h3, g1, g2, g3] <;> omega

theorem detLoop_nodup (dets : List Det) :
    ∀ st : ZoneTracker, keysNodup st.tracked_people →
      keysNodup (detLoop st dets).1.tracked_people := by
  induction dets with
  | nil => intro st h; exact h
  | cons d ds ih =>
      intro st h
      rw [detLoop_cons]
      exact ih (stepDet st d).1 (stepDet_nodup st d h)

theorem detLoop_countP (dets : List Det) :
    ∀ st : ZoneTracker, keysNodup st.tracked_people →
      countedCount (detLoop st dets).1.tracked_people
        = countedCount st.tracked_people + (detLoop st dets).2.length := by
  induction dets with
  | nil => intro st _; simp [detLoop_nil]
  | cons d ds ih =>
      intro st h
      rw [detLoop_cons]
      have h1 := ih (stepDet st d).1 (stepDet_nodup st d h)
      have g1 := stepDet_countP st d h
      simp [h1, g1]
      omega

theorem detLoop_events (dets : List Det) :
    ∀ st : ZoneTracker,
      ∀ e ∈ (detLoop st dets).2, ∃ d ∈ dets, ∃ zid, e = Ev.entry d.track_id zid := by
  induction dets with
  | nil => intro st e he; simp [detLoop_nil] at he
  | cons d ds ih =>
      intro st e he
      rw [detLoop_cons] at he
      rcases List.mem_append.mp he with h | h
      · obtain ⟨zid, rfl⟩ := (stepDet_events st d).1 e h
        exact ⟨d, List.mem_cons_self d ds, zid, rfl⟩
      · obtain ⟨d', hd', zid, rfl⟩ := ih (stepDet st d).1 e h
        exact ⟨d', List.mem_cons_of_mem d hd', zid, rfl⟩

theorem stepDet_flag_latch (st : ZoneTracker) (d : Det) (t : ℤ)
    (h : flagOf (lookupTrack st.tracked_people t) = true) :
    flagOf (lookupTrack (stepDet st d).1.tracked_people t) = true := by
  by_cases ht : t = d.track_id
  · subst ht
    rw [(stepDet_track_self st d).1]
    exact (stepDet_track_self st d).2.2.2.2 h
  · rw [stepDet_lookup_ne st d t ht]
    exact h

/-- Per-track behaviour of the whole detection loop: the `has_been_counted`
latch, the entry events for the track (told exactly by the flag flip), lookup
stability for undetected tracks, creation-only semantics, monotone
`max_overlap_ratio`, `last_seen` refresh for detected tracks, and the
`frame_count` budget. -/
theorem detLoop_track (t : ℤ) (dets : List Det) :
    ∀ st : ZoneTracker, keysNodup st.tracked_people →
      (flagOf (lookupTrack st.tracked_people t) = true →
        flagOf (lookupTrack (detLoop st dets).1.tracked_people t) = true) ∧
      entriesFor t (detLoop st dets).2
        = (if flagOf (lookupTrack st.tracked_people t) = false ∧
              flagOf (lookupTrack (detLoop st dets).1.tracked_people t) = true
           then 1 else 0) ∧
      (t ∉ detIds dets →
        lookupTrack (detLoop st dets).1.tracked_people t = lookupTrack st.tracked_people t) ∧
      (lookupTrack (detLoop st dets).1.tracked_people t = none ↔
        (lookupTrack st.tracked_people t = none ∧ t ∉ detIds dets)) ∧
      (∀ p, lookupTrack st.tracked_people t = some p →
        ∃ p', lookupTrack (detLoop st dets).1.tracked_people t = some p' ∧
          p.max_overlap ≤ p'.max_overlap) ∧
      (t ∈ detIds dets →
        ∃ p', lookupTrack (detLoop st dets).1.tracked_people t = some p' ∧
          p'.last_seen = st.frame_number) ∧
      frameCountOf (lookupTrack (detLoop st dets).1.tracked_people t)
        ≤ frameCountOf (lookupTrack st.tracked_people t)
          + dets.countP (fun d => d.track_id = t) := by
  induction dets with
  | nil =>
      intro st _
      rw [detLoop_nil]
      refine ⟨fun h => h, ?_, fun _ => rfl, by simp [detIds], fun p hp => ⟨p, hp, le_refl _⟩,
        by simp [detIds], by simp [entriesFor]⟩
      cases hc : flagOf (lookupTrack st.tracked_people t) <;> simp [entriesFor, hc]
  | cons d ds ih =>
      intro st hnd
      rw [detLoop_cons]
      obtain ⟨ilatch, ient, istable, inone, imax, iseen, ifc⟩ :=
        ih (stepDet st d).1 (stepDet_nodup st d hnd)
      have hmidfn : (stepDet st d).1.frame_number = st.frame_number := rfl
      by_cases ht : t = d.track_id
      · subst ht
        obtain ⟨hself, hls, hfc, hmax, hlatch⟩ := stepDet_track_self st d
        have hf1 : flagOf (lookupTrack (stepDet st d).1.tracked_people d.track_id)
            = (trimHistory (detAcc st d).person).has_been_counted := by
          rw [hself]; rfl
        have hed : entriesFor d.track_id (stepDet st d).2
            = (if flagOf (lookupTrack st.tracked_people d.track_id) = false ∧
                  (trimHistory (detAcc st d).person).has_been_counted = true
               then 1 else 0) := by
          rw [entriesFor_of_all d.track_id d.track_id (stepDet st d).2 (stepDet_events st d).1,
            if_pos rfl, (stepDet_events st d).2, hf1]
        refine ⟨?_, ?_, ?_, ?_, ?_, ?_, ?_⟩
        · intro h
          exact ilatch (stepDet_flag_latch st d d.track_id h)
        · rw [entriesFor_append, hed, ient, hf1]
          cases h0 : flagOf (lookupTrack st.tracked_people d.track_id) with
          | true =>
              have h1 : (trimHistory (detAcc st d).person).has_been_counted = true := hlatch h0
              have h2 := ilatch (by rw [hf1]; exact h1)
              rw [h1, h2]
              simp
          | false =>
              cases h1 : (trimHistory (detAcc st d).person).has_been_counted with
              | true =>
                  have h2 := ilatch (by rw [hf1]; exact h1)
                  rw [h2]
                  simp
              | false => simp
        · intro h
          exact absurd (by simp [detIds]) h
        · constructor
          · intro h
            rw [hself] at inone
            exact absurd ((inone.mp h).1) (by simp)
          · rintro ⟨-, h⟩
            exact absurd (by simp [detIds]) h
        · intro p hp
          have hmp : p.max_overlap ≤ (trimHistory (detAcc st d).person).max_overlap := by
            rw [hp] at hmax
            exact hmax
          obtain ⟨p', hp', hm'⟩ := imax _ hself
          exact ⟨p', hp', le_trans hmp hm'⟩
        · intro _
          by_cases hmem : d.track_id ∈ detIds ds
          · obtain ⟨p', hp', hl'⟩ := iseen hmem
            exact ⟨p', hp', by rw [hl', hmidfn]⟩
          · exact ⟨trimHistory (detAcc st d).person, by rw [istable hmem, hself], hls⟩
        · have h1 : frameCountOf (lookupTrack (stepDet st d).1.tracked_people d.track_id)
              = frameCountOf (lookupTrack st.tracked_people d.track_id) + 1 := by
            rw [hself]
            show (trimHistory (detAcc st d).person).frame_count = _
            exact hfc
          rw [List.countP_cons]
          simp
          omega
      · have hmid : lookupTrack (stepDet st d).1.tracked_people t
            = lookupTrack st.tracked_people t := stepDet_lookup_ne st d t ht
        have hed : entriesFor t (stepDet st d).2 = 0 := by
          rw [entriesFor_of_all t d.track_id (stepDet st d).2 (stepDet_events st d).1,
            if_neg (fun h => ht h.symm)]
        have hmem : (t ∈ detIds (d :: ds)) ↔ t ∈ detIds ds := by
          simp [detIds, ht]
        refine ⟨?_, ?_, ?_, ?_, ?_, ?_, ?_⟩
        · intro h
          exact ilatch (by rw [hmid]; exact h)
        · rw [entriesFor_append, hed, ient, hmid]
          simp
        · intro h
          rw [istable (fun hm => h (hmem.mpr hm)), hmid]
        · rw [inone, hmid, hmem]
        · intro p hp
          exact imax p (by rw [hmid]; exact hp)
        · intro h
          obtain ⟨p', hp', hl'⟩ := iseen (hmem.mp h)
          exact ⟨p', hp', by rw [hl', hmidfn]⟩
        · rw [List.countP_cons]
          have hc0 : decide (d.track_id = t) = false := by
            simp
            exact fun h => ht h.symm
          rw [hc0, if_neg (by simp)]
          rw [hmid] at ifc
          dsimp only
          omega

/-! ### Sweep lemmas -/

theorem sweep_static (st : ZoneTracker) :
    (sweep st).1.zones = st.zones ∧
    (sweep st).1.frame_number = st.frame_number ∧
    (sweep st).1.entry_count = st.entry_count ∧
    (sweep st).1.persistent_occupancy = st.persistent_occupancy :=
  ⟨rfl, rfl, rfl, rfl⟩

theorem sweep_events_eq (st : ZoneTracker) :
    (sweep st).2 = (staleCounted st.frame_number st.tracked_people).map (fun q => Ev.exit q.1) :=
  rfl

theorem sweep_exit_count (st : ZoneTracker) :
    (sweep st).1.exit_count
      = st.exit_count + (staleCounted st.frame_number st.tracked_people).length := by
  show st.exit_count + ((staleCounted st.frame_number st.tracked_people).map _).length = _
  rw [List.length_map]

theorem sweep_tracked (st : ZoneTracker) :
    (sweep st).1.tracked_people
      = st.tracked_people.filter (fun q => ! isStale st.frame_number q) := rfl

theorem sweep_current (st : ZoneTracker) :
    (sweep st).1.current_occupancy
      = ((staleCounted st.frame_number st.tracked_people).map (fun q => Ev.exit q.1)).foldl
          (fun c _ => max 0 (c - 1)) st.current_occupancy := rfl

theorem foldl_clamp_ge (l : List Ev) :
    ∀ c : ℤ, (l.length : ℤ) ≤ c →
      l.foldl (fun a _ => max 0 (a - 1)) c = c - l.length := by
  induction l with
  | nil => intro c _; simp
  | cons e tl ih =>
      intro c hc
      rw [List.length_cons] at hc
      push_cast at hc
      rw [List.foldl_cons]
      have h1 : max 0 (c - 1) = c - 1 := max_eq_right (by omega)
      rw [h1, ih (c - 1) (by omega), List.length_cons]
      push_cast
      ring

theorem sweep_nodup (st : ZoneTracker) (h : keysNodup st.tracked_people) :
    keysNodup (sweep st).1.tracked_people := by
  rw [sweep_tracked]
  exact keysNodup_filter _ _ h

theorem staleCounted_nodup (fn : ℕ) (m : List (ℤ × TrackedPerson)) (h : keysNodup m) :
    ((staleCounted fn m).map Prod.fst).Nodup :=
  keysNodup_filter _ _ (keysNodup_filter _ _ h)

theorem sweep_lookup (st : ZoneTracker) (h : keysNodup st.tracked_people) (t : ℤ) :
    lookupTrack (sweep st).1.tracked_people t
      = (lookupTrack st.tracked_people t).bind
          (fun p => if isStale st.frame_number (t, p) then none else some p) := by
  rw [sweep_tracked, lookupTrack_filter st.tracked_people _ t h]
  cases lookupTrack st.tracked_people t with
  | none => rfl
  | some p =>
      show (if (! isStale st.frame_number (t, p)) = true then _ else _) = _
      cases hs : isStale st.frame_number (t, p) <;> simp [hs]

theorem staleCounted_lookup (fn : ℕ) (m : List (ℤ × TrackedPerson)) (h : keysNodup m) (t : ℤ) :
    lookupTrack (staleCounted fn m) t
      = (lookupTrack m t).bind
          (fun p => if isStale fn (t, p) ∧ p.has_been_counted then some p else none) := by
  unfold staleCounted
  rw [lookupTrack_filter _ _ t (keysNodup_filter _ _ h), lookupTrack_filter _ _ t h]
  cases lookupTrack m t with
  | none => rfl
  | some p =>
      cases hs : isStale fn (t, p) <;> cases hc : p.has_been_counted <;>
        simp [hs, hc]

theorem countP_length_le (l : List (ℤ × TrackedPerson)) (p : ℤ × TrackedPerson → Bool) :
    l.countP p ≤ l.length := List.countP_le_length _

theorem staleCounted_le_counted (fn : ℕ) (m : List (ℤ × TrackedPerson)) :
    (staleCounted fn m).length ≤ countedCount m := by
  unfold staleCounted countedCount
  rw [← List.countP_eq_length_filter]
  calc (m.filter (isStale fn)).countP (fun q => q.2.has_been_counted)
      ≤ ((m.filter (isStale fn)).countP (fun q => q.2.has_been_counted))
        + ((m.filter (fun q => ! isStale fn q)).countP (fun q => q.2.has_been_counted)) :=
        Nat.le_add_right _ _
    _ = m.countP (fun q => q.2.has_been_counted) := (countP_filter_split m _ _).symm

theorem sweep_countP (st : ZoneTracker) :
    countedCount (sweep st).1.tracked_people
        + (staleCounted st.frame_number st.tracked_people).length
      = countedCount st.tracked_people := by
  rw [sweep_tracked]
  unfold countedCount staleCounted
  rw [← List.countP_eq_length_filter]
  rw [countP_filter_split st.tracked_people (fun q => q.2.has_been_counted)
    (isStale st.frame_number)]
  omega

theorem exitsFor_map_exit (t : ℤ) (l : List (ℤ × TrackedPerson)) :
    exitsFor t (l.map (fun q => Ev.exit q.1)) = l.countP (fun q => q.1 = t) := by
  induction l with
  | nil => rfl
  | cons a tl ih =>
      unfold exitsFor at ih ⊢
      rw [List.map_cons, List.countP_cons, List.countP_cons, ih]

theorem entriesFor_map_exit (t : ℤ) (l : List (ℤ × TrackedPerson)) :
    entriesFor t (l.map (fun q => Ev.exit q.1)) = 0 := by
  induction l with
  | nil => rfl
  | cons a tl ih =>
      unfold entriesFor at ih ⊢
      rw [List.map_cons, List.countP_cons, ih]
      simp

theorem countP_key_nodup (l : List (ℤ × TrackedPerson)) (t : ℤ)
    (h : (l.map Prod.fst).Nodup) :
    l.countP (fun q => q.1 = t) = (if lookupTrack l t = none then 0 else 1) := by
  induction l with
  | nil => simp [lookupTrack_nil]
  | cons a tl ih =>
      rw [List.map_cons, List.nodup_cons] at h
      rw [List.countP_cons, lookupTrack_cons]
      by_cases ha : a.1 = t
      · have htl : lookupTrack tl t = none := by
          rw [lookupTrack_eq_none]
          intro q hq hqt
          exact h.1 (by rw [ha, ← hqt]; exact List.mem_map_of_mem Prod.fst hq)
        rw [ih h.2, if_pos htl, if_pos ha]
        simp [ha]
      · rw [ih h.2, if_neg ha]
        simp [ha]

/-! ### The occupancy invariant -/

theorem inv_init : Inv initTracker := by
  refine ⟨rfl, rfl, rfl, ?_⟩
  unfold keysNodup initTracker
  simp

theorem inv_reset (st : ZoneTracker) : Inv (resetOccupancy st) := by
  refine ⟨rfl, rfl, rfl, ?_⟩
  unfold keysNodup resetOccupancy
  simp

theorem inv_zones (st : ZoneTracker) (req : ZoneUpdateRequest) (h : Inv st) :
    Inv (updateZonesEndpoint st req) := h

theorem inv_frame (st : ZoneTracker) (dets : List Det) (h : Inv st) :
    Inv (processDetections st dets).1 := by
  obtain ⟨h1, h2, h3, h4⟩ := h
  have h4' : keysNodup ({ st with frame_number := st.frame_number + 1 } : ZoneTracker).tracked_people := h4
  obtain ⟨cec, cco, cpo⟩ := detLoop_counters dets { st with frame_number := st.frame_number + 1 }
  have cnp := detLoop_countP dets { st with frame_number := st.frame_number + 1 } h4'
  have cnd := detLoop_nodup dets { st with frame_number := st.frame_number + 1 } h4'
  obtain ⟨-, -, cex⟩ := detLoop_static dets { st with frame_number := st.frame_number + 1 }
  set mid := (detLoop { st with frame_number := st.frame_number + 1 } dets).1 with hmid
  set L := (detLoop { st with frame_number := st.frame_number + 1 } dets).2.length with hL
  set k := (staleCounted mid.frame_number mid.tracked_people).length with hk
  -- invariant facts at the post-loop state
  have m1 : mid.persistent_occupancy = mid.entry_count := by
    rw [cpo, cec]
    show st.persistent_occupancy + L = st.entry_count + L
    omega
  have m2 : mid.current_occupancy = (mid.entry_count : ℤ) - (mid.exit_count : ℤ) := by
    rw [cco, cec, cex]
    show st.current_occupancy + L = ((st.entry_count + L : ℕ) : ℤ) - (st.exit_count : ℤ)
    rw [h2]
    push_cast
    ring
  have m3 : mid.entry_count = mid.exit_count + countedCount mid.tracked_people := by
    rw [cec, cex, cnp]
    show st.entry_count + L = st.exit_count + (countedCount st.tracked_people + L)
    omega
  have hkc : k ≤ countedCount mid.tracked_people := by
    rw [hk]
    exact staleCounted_le_counted _ _
  have mcur : mid.current_occupancy = (countedCount mid.tracked_people : ℤ) := by
    rw [m2, m3]
    push_cast
    ring
  have hcl : (sweep mid).1.current_occupancy = mid.current_occupancy - k := by
    rw [sweep_current]
    rw [foldl_clamp_ge _ mid.current_occupancy
      (by rw [List.length_map, ← hk, mcur]; exact_mod_cast hkc)]
    rw [List.length_map, hk]
  have hsp := sweep_countP mid
  rw [← hk] at hsp
  obtain ⟨-, -, sec, spo⟩ := sweep_static mid
  have sxc := sweep_exit_count mid
  rw [← hk] at sxc
  show Inv (sweep mid).1
  refine ⟨?_, ?_, ?_, sweep_nodup mid cnd⟩
  · rw [spo, sec, m1]
  · rw [hcl, sec, sxc, m2]
    push_cast
    ring
  · rw [sec, sxc, m3]
    omega

/-- Every reachable counting state satisfies the invariant. -/
theorem reach_inv (st : ZoneTracker) (h : Reach st) : Inv st := by
  induction h with
  | init => exact inv_init
  | frame dets _ ih => exact inv_frame _ dets ih
  | zones req _ ih => exact inv_zones _ req ih
  | reset _ ih => exact inv_reset _

/-! ### Frame-level composition lemmas -/

theorem processDetections_fst (st : ZoneTracker) (dets : List Det) :
    (processDetections st dets).1 = (sweep (midState st dets)).1 := rfl

theorem processDetections_snd (st : ZoneTracker) (dets : List Det) :
    (processDetections st dets).2
      = (detLoop { st with frame_number := st.frame_number + 1 } dets).2
        ++ (sweep (midState st dets)).2 := rfl

theorem midState_frame (st : ZoneTracker) (dets : List Det) :
    (midState st dets).frame_number = st.frame_number + 1 :=
  (detLoop_static dets _).2.1

theorem processDetections_zones (st : ZoneTracker) (dets : List Det) :
    (processDetections st dets).1.zones = st.zones := by
  rw [processDetections_fst, (sweep_static _).1]
  exact (detLoop_static dets _).1

theorem processDetections_frame_number (st : ZoneTracker) (dets : List Det) :
    (processDetections st dets).1.frame_number = st.frame_number + 1 := by
  rw [processDetections_fst, (sweep_static _).2.1]
  exact midState_frame st dets

theorem midState_nodup (st : ZoneTracker) (dets : List Det) (hnd : keysNodup st.tracked_people) :
    keysNodup (midState st dets).tracked_people :=
  detLoop_nodup dets _ hnd

theorem processDetections_nodup (st : ZoneTracker) (dets : List Det)
    (hnd : keysNodup st.tracked_people) :
    keysNodup (processDetections st dets).1.tracked_people := by
  rw [processDetections_fst]
  exact sweep_nodup _ (midState_nodup st dets hnd)

theorem exitsFor_all_entries (t : ℤ) (evl : List Ev)
    (h : ∀ e ∈ evl, ∃ tid zid, e = Ev.entry tid zid) :
    exitsFor t evl = 0 := by
  induction evl with
  | nil => rfl
  | cons e tl ih =>
      obtain ⟨tid, zid, rfl⟩ := h e (List.mem_cons_self e tl)
      have htl := ih fun e he => h e (List.mem_cons_of_mem _ he)
      unfold exitsFor at htl ⊢
      rw [List.countP_cons, htl]
      simp

/-- Entry events of a whole frame for track `t`: exactly one when the track's
flag flips during the detection loop, none otherwise. -/
theorem frame_entries (st : ZoneTracker) (dets : List Det) (t : ℤ)
    (hnd : keysNodup st.tracked_people) :
    entriesFor t (processDetections st dets).2
      = (if flagOf (lookupTrack st.tracked_people t) = false ∧
            flagOf (lookupTrack (midState st dets).tracked_people t) = true
         then 1 else 0) := by
  rw [processDetections_snd, entriesFor_append, sweep_events_eq, entriesFor_map_exit]
  have h1 := (detLoop_track t dets { st with frame_number := st.frame_number + 1 } hnd).2.1
  rw [h1]
  rfl

/-- Exit events of a whole frame for track `t`: exactly one when the post-loop
state holds a stale counted entry for `t`. -/
theorem frame_exits (st : ZoneTracker) (dets : List Det) (t : ℤ)
    (hnd : keysNodup st.tracked_people) :
    exitsFor t (processDetections st dets).2
      = (if lookupTrack
            (staleCounted (midState st dets).frame_number (midState st dets).tracked_people) t
            = none
         then 0 else 1) := by
  rw [processDetections_snd, exitsFor_append, sweep_events_eq, exitsFor_map_exit]
  rw [exitsFor_all_entries t _
    (fun e he => by
      obtain ⟨d, -, zid, rfl⟩ := detLoop_events dets _ e he
      exact ⟨d.track_id, zid, rfl⟩)]
  rw [countP_key_nodup _ t (staleCounted_nodup _ _ (midState_nodup st dets hnd))]
  omega

/-- Final lookup of a frame: the post-loop entry filtered by staleness. -/
theorem frame_lookup (st : ZoneTracker) (dets : List Det) (t : ℤ)
    (hnd : keysNodup st.tracked_people) :
    lookupTrack (processDetections st dets).1.tracked_people t
      = (lookupTrack (midState st dets).tracked_people t).bind
          (fun p => if isStale (midState st dets).frame_number (t, p) then none else some p) := by
  rw [processDetections_fst]
  exact sweep_lookup _ (midState_nodup st dets hnd) t

theorem processDetections_persistent (st : ZoneTracker) (dets : List Det) :
    (processDetections st dets).1.persistent_occupancy
      = st.persistent_occupancy
        + (detLoop { st with frame_number := st.frame_number + 1 } dets).2.length := by
  rw [processDetections_fst, (sweep_static _).2.2.2]
  exact (detLoop_counters dets _).2.2

/-- C1: starting from the initial counting state, and after any interleaving
of processed frames, zone updates and `/occupancy/reset` calls, the occupancy
aggregate satisfies `persistent_occupancy = entry_count`,
`live_occupancy = entry_count − exit_count ≥ 0` (hence
`entry_count ≥ exit_count`), `persistent_occupancy` is monotone
non-decreasing under `process_detections`, and after any further frame the
identity `live = entries − exits` still holds, so the `max(0, …)` clamp on
exit never actually truncates. -/
theorem C1_occupancy_invariants (st : ZoneTracker) (h : Reach st) :
    st.persistent_occupancy = st.entry_count ∧
    st.current_occupancy = (st.entry_count : ℤ) - (st.exit_count : ℤ) ∧
    st.exit_count ≤ st.entry_count ∧
    (0 : ℤ) ≤ st.current_occupancy ∧
    (∀ dets : List Det,
      st.persistent_occupancy ≤ (processDetections st dets).1.persistent_occupancy ∧
      (processDetections st dets).1.current_occupancy
        = ((processDetections st dets).1.entry_count : ℤ)
          - ((processDetections st dets).1.exit_count : ℤ)) := by
  obtain ⟨h1, h2, h3, -⟩ := reach_inv st h
  refine ⟨h1, h2, by omega, by rw [h2]; omega, fun dets => ⟨?_, ?_⟩⟩
  · rw [processDetections_persistent]
    omega
  · exact (inv_frame st dets (reach_inv st h)).2.1

theorem foldl_clamp (l : List Ev) :
    ∀ c : ℤ,
      l.foldl (fun a _ => max 0 (a - 1)) c
        = if l.length = 0 then c else max 0 (c - l.length) := by
  induction l with
  | nil => intro c; simp
  | cons e tl ih =>
      intro c
      rw [List.foldl_cons, ih (max 0 (c - 1)), List.length_cons]
      by_cases h : tl.length = 0
      · simp [h]
      · rw [if_neg h, if_neg (by omega)]
        rcases le_or_lt 1 c with hc | hc
        · rw [max_eq_right (by omega : (0:ℤ) ≤ c - 1)]
          congr 1
          push_cast
          ring
        · rw [max_eq_left (by omega : (c:ℤ) - 1 ≤ 0)]
          rw [max_eq_left (by omega : (0:ℤ) - (tl.length:ℤ) ≤ 0)]
          rw [max_eq_left (show (c:ℤ) - ((tl.length + 1 : ℕ) : ℤ) ≤ 0 by push_cast; omega)]

/-! ### Hysteresis corollary lemmas -/

theorem zoneFold_no08 (fn : ℕ) (d : Det) (zs : List Zone)
    (h : ∀ z ∈ zs, overlapRatio z d.x1 d.y1 d.x2 d.y2 < 0.8) :
    ∀ acc : ZAcc,
      (zs.foldl (stepZone fn d) acc).person.has_been_counted
        = acc.person.has_been_counted := by
  induction zs with
  | nil => intro acc; rfl
  | cons z zs ih =>
      intro acc
      rw [List.foldl_cons]
      have hnf : ¬ fireCond d acc z := fun hf =>
        absurd hf.2.2.1 (not_le.mpr (h z (List.mem_cons_self z zs)))
      rw [ih (fun z hz => h z (List.mem_cons_of_mem _ hz)) (stepZone fn d acc z),
        (stepZone_nofire fn d acc z hnf).2.2.2.2]

theorem zoneFold_lowfc (fn : ℕ) (d : Det) (zs : List Zone) :
    ∀ acc : ZAcc, acc.person.frame_count < MINIMUM_ZONE_TIME →
      (zs.foldl (stepZone fn d) acc).person.has_been_counted
        = acc.person.has_been_counted := by
  induction zs with
  | nil => intro acc _; rfl
  | cons z zs ih =>
      intro acc hfc
      rw [List.foldl_cons]
      have hnf : ¬ fireCond d acc z := fun hf => absurd hf.2.2.2 (not_le.mpr hfc)
      have hfc' : (stepZone fn d acc z).person.frame_count < MINIMUM_ZONE_TIME := by
        rw [(stepZone_fields fn d acc z).2.1]
        exact hfc
      rw [ih (stepZone fn d acc z) hfc', (stepZone_nofire fn d acc z hnf).2.2.2.2]

theorem stepDet_flag_no08 (st : ZoneTracker) (d : Det)
    (h : ∀ z ∈ st.zones, overlapRatio z d.x1 d.y1 d.x2 d.y2 < 0.8) :
    flagOf (lookupTrack (stepDet st d).1.tracked_people d.track_id)
      = flagOf (lookupTrack st.tracked_people d.track_id) := by
  rw [(stepDet_track_self st d).1]
  show (trimHistory (detAcc st d).person).has_been_counted = _
  rw [(trimHistory_fields _).2.2.2.1]
  unfold detAcc
  rw [zoneFold_no08 st.frame_number d st.zones h (detAccInit st d)]
  rw [← fetchPerson_flag]
  rfl

theorem stepDet_flag_lowfc (st : ZoneTracker) (d : Det)
    (h : frameCountOf (lookupTrack st.tracked_people d.track_id) + 1 < MINIMUM_ZONE_TIME) :
    flagOf (lookupTrack (stepDet st d).1.tracked_people d.track_id)
      = flagOf (lookupTrack st.tracked_people d.track_id) := by
  rw [(stepDet_track_self st d).1]
  show (trimHistory (detAcc st d).person).has_been_counted = _
  rw [(trimHistory_fields _).2.2.2.1]
  unfold detAcc
  have hfc : (detAccInit st d).person.frame_count < MINIMUM_ZONE_TIME := by
    show (fetchPerson st d.track_id).frame_count + 1 < MINIMUM_ZONE_TIME
    rw [fetchPerson_frame_count]
    exact h
  rw [zoneFold_lowfc st.frame_number d st.zones (detAccInit st d) hfc]
  rw [← fetchPerson_flag]
  rfl

theorem detLoop_flag_no08 (t : ℤ) (dets : List Det) :
    ∀ st : ZoneTracker,
      (∀ d ∈ dets, d.track_id = t →
        ∀ z ∈ st.zones, overlapRatio z d.x1 d.y1 d.x2 d.y2 < 0.8) →
      flagOf (lookupTrack (detLoop st dets).1.tracked_people t)
        = flagOf (lookupTrack st.tracked_people t) := by
  induction dets with
  | nil => intro st _; rw [detLoop_nil]
  | cons d ds ih =>
      intro st h
      rw [detLoop_cons]
      have hz : (stepDet st d).1.zones = st.zones := (stepDet_static st d).1
      have hmid := ih (stepDet st d).1
        (fun d' hd' hdt z hz' => h d' (List.mem_cons_of_mem _ hd') hdt z (hz ▸ hz'))
      rw [hmid]
      by_cases ht : d.track_id = t
      · rw [← ht]
        exact stepDet_flag_no08 st d (h d (List.mem_cons_self d ds) ht)
      · rw [stepDet_lookup_ne st d t (fun hh => ht hh.symm)]

theorem detLoop_flag_lowfc (t : ℤ) (dets : List Det) :
    ∀ st : ZoneTracker, keysNodup st.tracked_people →
      frameCountOf (lookupTrack st.tracked_people t)
          + dets.countP (fun d => d.track_id = t) < MINIMUM_ZONE_TIME →
      flagOf (lookupTrack (detLoop st dets).1.tracked_people t)
        = flagOf (lookupTrack st.tracked_people t) := by
  induction dets with
  | nil => intro st _ _; rw [detLoop_nil]
  | cons d ds ih =>
      intro st hnd h
      rw [detLoop_cons, List.countP_cons] at *
      by_cases ht : d.track_id = t
      · have hfc1 : frameCountOf (lookupTrack (stepDet st d).1.tracked_people t)
            = frameCountOf (lookupTrack st.tracked_people t) + 1 := by
          rw [← ht, (stepDet_track_self st d).1]
          show (trimHistory (detAcc st d).person).frame_count = _
          exact (stepDet_track_self st d).2.2.1
        have hmid := ih (stepDet st d).1 (stepDet_nodup st d hnd)
          (by rw [hfc1]; simp [ht] at h; omega)
        rw [hmid, ← ht]
        exact stepDet_flag_lowfc st d
          (by rw [ht]; simp [ht] at h; omega)
      · have hmidl : lookupTrack (stepDet st d).1.tracked_people t
            = lookupTrack st.tracked_people t :=
          stepDet_lookup_ne st d t (fun hh => ht hh.symm)
        have hmid := ih (stepDet st d).1 (stepDet_nodup st d hnd)
          (by rw [hmidl]; simp [ht] at h; omega)
        rw [hmid, hmidl]

theorem frame_entries_no08 (st : ZoneTracker) (dets : List Det) (t : ℤ)
    (hnd : keysNodup st.tracked_people)
    (h : ∀ d ∈ dets, d.track_id = t →
      ∀ z ∈ st.zones, overlapRatio z d.x1 d.y1 d.x2 d.y2 < 0.8) :
    entriesFor t (processDetections st dets).2 = 0 := by
  rw [frame_entries st dets t hnd]
  have hflag : flagOf (lookupTrack (midState st dets).tracked_people t)
      = flagOf (lookupTrack st.tracked_people t) :=
    detLoop_flag_no08 t dets { st with frame_number := st.frame_number + 1 } h
  rw [hflag]
  cases hc : flagOf (lookupTrack st.tracked_people t) <;> simp [hc]

theorem frame_entries_lowfc (st : ZoneTracker) (dets : List Det) (t : ℤ)
    (hnd : keysNodup st.tracked_people)
    (h : frameCountOf (lookupTrack st.tracked_people t)
        + dets.countP (fun d => d.track_id = t) < MINIMUM_ZONE_TIME) :
    entriesFor t (processDetections st dets).2 = 0 := by
  rw [frame_entries st dets t hnd]
  have hflag : flagOf (lookupTrack (midState st dets).tracked_people t)
      = flagOf (lookupTrack st.tracked_people t) :=
    detLoop_flag_lowfc t dets { st with frame_number := st.frame_number + 1 } hnd h
  rw [hflag]
  cases hc : flagOf (lookupTrack st.tracked_people t) <;> simp [hc]

theorem frame_fc_bound (st : ZoneTracker) (dets : List Det) (t : ℤ)
    (hnd : keysNodup st.tracked_people) :
    frameCountOf (lookupTrack (processDetections st dets).1.tracked_people t)
      ≤ frameCountOf (lookupTrack st.tracked_people t)
        + dets.countP (fun d => d.track_id = t) := by
  have h1 := (detLoop_track t dets { st with frame_number := st.frame_number + 1 } hnd).2.2.2.2.2.2
  have h2 : frameCountOf (lookupTrack (processDetections st dets).1.tracked_people t)
      ≤ frameCountOf (lookupTrack (midState st dets).tracked_people t) := by
    rw [frame_lookup st dets t hnd]
    cases lookupTrack (midState st dets).tracked_people t with
    | none => exact le_refl _
    | some p =>
        show frameCountOf ((some p).bind _) ≤ _
        cases hs : isStale (midState st dets).frame_number (t, p) <;> simp [hs, frameCountOf]
  exact le_trans h2 h1

theorem runFrames_nil (st : ZoneTracker) : runFrames st [] = (st, []) := rfl

theorem runFrames_shift (frames : List (List Det)) :
    ∀ (st : ZoneTracker) (ev0 : List Ev),
      frames.foldl
        (fun (acc : ZoneTracker × List Ev) f =>
          let r := processDetections acc.1 f
          (r.1, acc.2 ++ r.2)) (st, ev0)
      = ((runFrames st frames).1, ev0 ++ (runFrames st frames).2) := by
  induction frames with
  | nil => intro st ev0; simp [runFrames]
  | cons f fs ih =>
      intro st ev0
      show fs.foldl _ ((processDetections st f).1, ev0 ++ (processDetections st f).2) = _
      rw [ih (processDetections st f).1 (ev0 ++ (processDetections st f).2)]
      have : runFrames st (f :: fs)
          = ((runFrames (processDetections st f).1 fs).1,
             ([] ++ (processDetections st f).2) ++ (runFrames (processDetections st f).1 fs).2) := by
        show fs.foldl _ ((processDetections st f).1, [] ++ (processDetections st f).2) = _
        rw [ih (processDetections st f).1 ([] ++ (processDetections st f).2)]
      rw [this]
      simp

theorem runFrames_cons (st : ZoneTracker) (f : List Det) (fs : List (List Det)) :
    runFrames st (f :: fs)
      = ((runFrames (processDetections st f).1 fs).1,
         (processDetections st f).2 ++ (runFrames (processDetections st f).1 fs).2) := by
  show fs.foldl _ ((processDetections st f).1, [] ++ (processDetections st f).2) = _
  rw [runFrames_shift fs (processDetections st f).1 ([] ++ (processDetections st f).2)]
  simp

theorem runFrames_no08 (t : ℤ) (frames : List (List Det)) :
    ∀ st : ZoneTracker, keysNodup st.tracked_people →
      (∀ f ∈ frames, ∀ d ∈ f, d.track_id = t →
        ∀ z ∈ st.zones, overlapRatio z d.x1 d.y1 d.x2 d.y2 < 0.8) →
      entriesFor t (runFrames st frames).2 = 0 := by
  induction frames with
  | nil => intro st _ _; rw [runFrames_nil]; rfl
  | cons f fs ih =>
      intro st hnd h
      rw [runFrames_cons, entriesFor_append]
      rw [frame_entries_no08 st f t hnd (h f (List.mem_cons_self f fs))]
      rw [ih (processDetections st f).1 (processDetections_nodup st f hnd)
        (fun f' hf' d hd hdt z hz =>
          h f' (List.mem_cons_of_mem _ hf') d hd hdt z
            (by rw [← processDetections_zones st f]; exact hz))]

theorem runFrames_lowfc (t : ℤ) (frames : List (List Det)) :
    ∀ st : ZoneTracker, keysNodup st.tracked_people →
      frameCountOf (lookupTrack st.tracked_people t)
          + (frames.map (fun f => f.countP (fun d => d.track_id = t))).sum
        < MINIMUM_ZONE_TIME →
      entriesFor t (runFrames st frames).2 = 0 := by
  induction frames with
  | nil => intro st _ _; rw [runFrames_nil]; rfl
  | cons f fs ih =>
      intro st hnd h
      rw [List.map_cons, List.sum_cons] at h
      rw [runFrames_cons, entriesFor_append]
      rw [frame_entries_lowfc st f t hnd (by omega)]
      have hb := frame_fc_bound st f t hnd
      rw [ih (processDetections st f).1 (processDetections_nodup st f hnd) (by omega)]

/-! ### Per-frame transition facts for a single track -/

/-- Complete single-frame case analysis for one track: how presence, the
`has_been_counted` flag, `max_overlap_ratio` and the entry/exit events of the
frame relate. -/
theorem frame_transition (st : ZoneTracker) (dets : List Det) (t : ℤ)
    (hnd : keysNodup st.tracked_people) :
    (∀ p', lookupTrack (processDetections st dets).1.tracked_people t = some p' →
      exitsFor t (processDetections st dets).2 = 0 ∧
      (∀ p, lookupTrack st.tracked_people t = some p →
        entriesFor t (processDetections st dets).2
          = (if p.has_been_counted = false ∧ p'.has_been_counted = true then 1 else 0) ∧
        p.max_overlap ≤ p'.max_overlap ∧
        (p.has_been_counted = true → p'.has_been_counted = true)) ∧
      (lookupTrack st.tracked_people t = none →
        entriesFor t (processDetections st dets).2
          = (if p'.has_been_counted = true then 1 else 0))) ∧
    (lookupTrack (processDetections st dets).1.tracked_people t = none →
      lookupTrack st.tracked_people t = none →
      entriesFor t (processDetections st dets).2 = 0 ∧
      exitsFor t (processDetections st dets).2 = 0) ∧
    (lookupTrack (processDetections st dets).1.tracked_people t = none →
      ∀ p, lookupTrack st.tracked_people t = some p →
        entriesFor t (processDetections st dets).2 = 0 ∧
        exitsFor t (processDetections st dets).2
          = (if p.has_been_counted = true then 1 else 0)) := by
  have hndm := midState_nodup st dets hnd
  have hE := frame_entries st dets t hnd
  have hX := frame_exits st dets t hnd
  have hL := frame_lookup st dets t hnd
  have hSC := staleCounted_lookup (midState st dets).frame_number
    (midState st dets).tracked_people hndm t
  obtain ⟨ilatch, -, istable, inone, imax, iseen, -⟩ :=
    detLoop_track t dets { st with frame_number := st.frame_number + 1 } hnd
  have inone' : lookupTrack (midState st dets).tracked_people t = none ↔
      (lookupTrack st.tracked_people t = none ∧ t ∉ detIds dets) := inone
  have istable' : ∀ _ : t ∉ detIds dets,
      lookupTrack (midState st dets).tracked_people t
        = lookupTrack st.tracked_people t := fun h => istable h
  have imax' : ∀ p, lookupTrack st.tracked_people t = some p →
      ∃ p2, lookupTrack (midState st dets).tracked_people t = some p2 ∧
        p.max_overlap ≤ p2.max_overlap := fun p hp => imax p hp
  have ilatch' : flagOf (lookupTrack st.tracked_people t) = true →
      flagOf (lookupTrack (midState st dets).tracked_people t) = true :=
    fun h => ilatch h
  have hdet_notstale : ∀ pm, t ∈ detIds dets →
      lookupTrack (midState st dets).tracked_people t = some pm →
      isStale (midState st dets).frame_number (t, pm) = false := by
    intro pm hmem hpm
    obtain ⟨p', hp', hl'⟩ := iseen hmem
    have hpp : pm = p' := by
      have : lookupTrack (midState st dets).tracked_people t = some p' := hp'
      rw [hpm] at this
      exact (Option.some_inj.mp this)
    unfold isStale
    rw [hpp, hl', midState_frame]
    simp
  cases hmid : lookupTrack (midState st dets).tracked_people t with
  | none =>
      obtain ⟨hm, hnotin⟩ := inone'.mp hmid
      have hout : lookupTrack (processDetections st dets).1.tracked_people t = none := by
        rw [hL, hmid]
        rfl
      have he : entriesFor t (processDetections st dets).2 = 0 := by
        rw [hE, hmid]
        simp [flagOf]
      have hx : exitsFor t (processDetections st dets).2 = 0 := by
        rw [hX, hSC, hmid]
        simp
      refine ⟨?_, ?_, ?_⟩
      · intro p' hp'
        rw [hout] at hp'
        exact absurd hp' (by simp)
      · intro _ _
        exact ⟨he, hx⟩
      · intro _ p hp
        have hm' : lookupTrack st.tracked_people t = none := hm
        rw [hm'] at hp
        exact absurd hp (by simp)
  | some pm =>
      by_cases hs : isStale (midState st dets).frame_number (t, pm) = true
      · -- stale: removed by the sweep
        have hout : lookupTrack (processDetections st dets).1.tracked_people t = none := by
          rw [hL, hmid]
          simp [hs]
        have hnotdet : t ∉ detIds dets := fun hmem => by
          rw [hdet_notstale pm hmem hmid] at hs
          exact Bool.noConfusion hs
        have hm : lookupTrack st.tracked_people t = some pm := by
          rw [← hmid, istable' hnotdet]
        have he : entriesFor t (processDetections st dets).2 = 0 := by
          rw [hE, hm, hmid]
          cases hc : pm.has_been_counted <;> simp [flagOf, hc]
        have hx : exitsFor t (processDetections st dets).2
            = (if pm.has_been_counted = true then 1 else 0) := by
          rw [hX, hSC, hmid]
          cases hc : pm.has_been_counted <;> simp [hs, hc]
        refine ⟨?_, ?_, ?_⟩
        · intro p' hp'
          rw [hout] at hp'
          exact absurd hp' (by simp)
        · intro _ hmn
          rw [hm] at hmn
          exact absurd hmn (by simp)
        · intro _ p hp
          rw [hm] at hp
          cases hp
          exact ⟨he, hx⟩
      · have hsf : isStale (midState st dets).frame_number (t, pm) = false :=
          Bool.eq_false_iff.mpr hs
        have hout : lookupTrack (processDetections st dets).1.tracked_people t = some pm := by
          rw [hL, hmid]
          simp [hsf]
        have hx : exitsFor t (processDetections st dets).2 = 0 := by
          rw [hX, hSC, hmid]
          simp [hsf]
        refine ⟨?_, ?_, ?_⟩
        · intro p' hp'
          rw [hout] at hp'
          cases hp'
          refine ⟨hx, ?_, ?_⟩
          · intro p hp
            refine ⟨?_, ?_, ?_⟩
            · rw [hE, hp, hmid]
              rfl
            · obtain ⟨p2, hp2, hmono⟩ := imax' p hp
              rw [hmid] at hp2
              cases hp2
              exact hmono
            · intro hc
              have h1 : flagOf (lookupTrack st.tracked_people t) = true := by
                rw [hp]
                exact hc
              have h2 := ilatch' h1
              rw [hmid] at h2
              exact h2
          · intro hmn
            rw [hE, hmn, hmid]
            simp [flagOf]
        · intro hmn
          rw [hout] at hmn
          exact absurd hmn (by simp)
        · intro hmn
          rw [hout] at hmn
          exact absurd hmn (by simp)

theorem NoMidRemoval_cons (t : ℤ) (st : ZoneTracker) (f : List Det) (fs : List (List Det)) :
    NoMidRemoval t st (f :: fs) ↔
      ((fs ≠ [] → lookupTrack (processDetections st f).1.tracked_people t = none →
        lookupTrack st.tracked_people t = none) ∧
       NoMidRemoval t (processDetections st f).1 fs) := Iff.rfl

theorem runFrames_nodup (fr : List (List Det)) :
    ∀ st : ZoneTracker, keysNodup st.tracked_people →
      keysNodup (runFrames st fr).1.tracked_people := by
  induction fr with
  | nil => intro st h; exact h
  | cons f fs ih =>
      intro st h
      rw [runFrames_cons]
      exact ih (processDetections st f).1 (processDetections_nodup st f h)

theorem NoMidRemoval_drop (t : ℤ) :
    ∀ (a b : List (List Det)) (st : ZoneTracker),
      NoMidRemoval t st (a ++ b) → NoMidRemoval t (runFrames st a).1 b := by
  intro a
  induction a with
  | nil => intro b st h; exact h
  | cons f fs ih =>
      intro b st h
      rw [runFrames_cons]
      exact ih b (processDetections st f).1 ((NoMidRemoval_cons t st f (fs ++ b)).mp h).2

/-- Main counting induction for claim C3: accumulated entry/exit counts for a
single track stay within `exits ≤ entries ≤ 1` along every prefix of the
run. -/
theorem C3_counts_aux (t : ℤ) :
    ∀ (frames : List (List Det)) (st : ZoneTracker) (E X : ℕ),
      keysNodup st.tracked_people →
      ((∃ p, lookupTrack st.tracked_people t = some p ∧ E ≤ 1 ∧ X = 0 ∧
          (p.has_been_counted = true ↔ E = 1)) ∨
       (lookupTrack st.tracked_people t = none ∧ E = X ∧ E ≤ 1 ∧
         (frames ≠ [] → E = 0))) →
      NoMidRemoval t st frames →
      ∀ fr1 fr2, frames = fr1 ++ fr2 →
        X + exitsFor t (runFrames st fr1).2 ≤ E + entriesFor t (runFrames st fr1).2 ∧
        E + entriesFor t (runFrames st fr1).2 ≤ 1 := by
  intro frames
  induction frames with
  | nil =>
      intro st E X _ hJ _ fr1 fr2 hsplit
      have hfr1 : fr1 = [] := by
        cases fr1 with
        | nil => rfl
        | cons a b => exact absurd hsplit (by simp)
      subst hfr1
      rw [runFrames_nil]
      rcases hJ with ⟨p, -, hE, hX, -⟩ | ⟨-, hEX, hE, -⟩ <;>
        simp [entriesFor, exitsFor] <;> omega
  | cons f fs ih =>
      intro st E X hnd hJ hnr fr1 fr2 hsplit
      have hX0 : X = 0 := by
        rcases hJ with ⟨p, -, -, hX, -⟩ | ⟨-, hEX, -, hE0⟩
        · exact hX
        · rw [← hEX]
          exact hE0 (by simp)
      cases fr1 with
      | nil =>
          rw [runFrames_nil]
          rcases hJ with ⟨p, -, hE, hX, -⟩ | ⟨-, hEX, hE, -⟩ <;>
            simp [entriesFor, exitsFor] <;> omega
      | cons f1 fr1' =>
          injection hsplit with hf1 hfs
          subst hf1
          rw [runFrames_cons, entriesFor_append, exitsFor_append]
          obtain ⟨T1, T2, T3⟩ := frame_transition st f t hnd
          have hnr1 := ((NoMidRemoval_cons t st f fs).mp hnr).1
          have hnrtail := ((NoMidRemoval_cons t st f fs).mp hnr).2
          have hnd1 := processDetections_nodup st f hnd
          -- establish the invariant at the post-frame state
          have hJ1 : (∃ p, lookupTrack (processDetections st f).1.tracked_people t = some p ∧
              E + entriesFor t (processDetections st f).2 ≤ 1 ∧
              X + exitsFor t (processDetections st f).2 = 0 ∧
              (p.has_been_counted = true ↔ E + entriesFor t (processDetections st f).2 = 1)) ∨
              (lookupTrack (processDetections st f).1.tracked_people t = none ∧
               E + entriesFor t (processDetections st f).2
                 = X + exitsFor t (processDetections st f).2 ∧
               E + entriesFor t (processDetections st f).2 ≤ 1 ∧
               (fs ≠ [] → E + entriesFor t (processDetections st f).2 = 0)) := by
            cases h1 : lookupTrack (processDetections st f).1.tracked_people t with
            | some p' =>
                obtain ⟨hx0, hpres, habsf⟩ := T1 p' h1
                left
                rcases hJ with ⟨p, hp, hE, hX, hiff⟩ | ⟨hm, hEX, hE, hE0⟩
                · obtain ⟨he, -, hlatch⟩ := hpres p hp
                  rcases (Bool.eq_false_or_eq_true p.has_been_counted).symm with hc | hc
                  · have hEz : E = 0 := by
                      have hne : ¬ E = 1 := fun h => by
                        have h3 := hiff.mpr h
                        rw [hc] at h3
                        exact absurd h3 (by simp)
                      omega
                    rcases (Bool.eq_false_or_eq_true p'.has_been_counted).symm with hc' | hc'
                    · have hez : entriesFor t (processDetections st f).2 = 0 := by
                        rw [he, if_neg]
                        rintro ⟨-, h2⟩
                        rw [hc'] at h2
                        exact absurd h2 (by simp)
                      refine ⟨p', rfl, by omega, by omega, ?_⟩
                      rw [hc', hez, hEz]
                      simp
                    · have he1 : entriesFor t (processDetections st f).2 = 1 := by
                        rw [he, if_pos ⟨hc, hc'⟩]
                      refine ⟨p', rfl, by omega, by omega, ?_⟩
                      rw [hc', he1, hEz]
                      simp
                  · have hE1 : E = 1 := hiff.mp hc
                    have hc' := hlatch hc
                    have hez : entriesFor t (processDetections st f).2 = 0 := by
                      rw [he, if_neg]
                      rintro ⟨h2, -⟩
                      rw [hc] at h2
                      exact absurd h2 (by simp)
                    refine ⟨p', rfl, by omega, by omega, ?_⟩
                    rw [hc', hez, hE1]
                    simp
                · have hEz : E = 0 := hE0 (by simp)
                  have hXz : X = 0 := by omega
                  have he := habsf hm
                  rcases (Bool.eq_false_or_eq_true p'.has_been_counted).symm with hc' | hc'
                  · have hez : entriesFor t (processDetections st f).2 = 0 := by
                      rw [he, if_neg]
                      rw [hc']
                      simp
                    refine ⟨p', rfl, by omega, by omega, ?_⟩
                    rw [hc', hez, hEz]
                    simp
                  · have he1 : entriesFor t (processDetections st f).2 = 1 := by
                      rw [he, if_pos hc']
                    refine ⟨p', rfl, by omega, by omega, ?_⟩
                    rw [hc', he1, hEz]
                    simp
            | none =>
                right
                cases hm : lookupTrack st.tracked_people t with
                | some p =>
                    obtain ⟨he, hx⟩ := T3 h1 p hm
                    rcases hJ with ⟨p2, hp2, hE, hX, hiff⟩ | ⟨hm2, -, -, -⟩
                    · have hpp : p2 = p := by
                        rw [hm] at hp2
                        exact (Option.some_inj.mp hp2).symm
                      subst hpp
                      have hfsE : fs ≠ [] → E + entriesFor t (processDetections st f).2 = 0 :=
                        fun hne => absurd (hnr1 hne h1) (by rw [hm]; simp)
                      rcases (Bool.eq_false_or_eq_true p2.has_been_counted).symm with hc | hc
                      · have hEz : E = 0 := by
                          have hne : ¬ E = 1 := fun h => by
                            have h3 := hiff.mpr h
                            rw [hc] at h3
                            exact absurd h3 (by simp)
                          omega
                        have hxz : exitsFor t (processDetections st f).2 = 0 := by
                          rw [hx, if_neg]
                          rw [hc]
                          simp
                        exact ⟨rfl, by omega, by omega, hfsE⟩
                      · have hE1 : E = 1 := hiff.mp hc
                        have hx1 : exitsFor t (processDetections st f).2 = 1 := by
                          rw [hx, if_pos hc]
                        exact ⟨rfl, by omega, by omega, hfsE⟩
                    · rw [hm2] at hm
                      exact absurd hm (by simp)
                | none =>
                    obtain ⟨he, hx⟩ := T2 h1 hm
                    rcases hJ with ⟨p2, hp2, -, -, -⟩ | ⟨-, hEX, hE, hE0⟩
                    · rw [hm] at hp2
                      exact absurd hp2 (by simp)
                    · refine ⟨rfl, by omega, by omega, ?_⟩
                      intro _
                      rw [he, hE0 (by simp)]
          have := ih (processDetections st f).1
            (E + entriesFor t (processDetections st f).2)
            (X + exitsFor t (processDetections st f).2)
            hnd1 hJ1 hnrtail fr1' fr2 hfs
          omega

/-- Between two snapshots of a run in which the track is never removed
mid-sequence, `max_overlap_ratio` is monotone and `has_been_counted`
latches. -/
theorem run_present_mono (t : ℤ) :
    ∀ (fr rest : List (List Det)) (st : ZoneTracker),
      keysNodup st.tracked_people →
      NoMidRemoval t st (fr ++ rest) →
      ∀ p q, lookupTrack st.tracked_people t = some p →
        lookupTrack (runFrames st fr).1.tracked_people t = some q →
        p.max_overlap ≤ q.max_overlap ∧
        (p.has_been_counted = true → q.has_been_counted = true) := by
  intro fr
  induction fr with
  | nil =>
      intro rest st _ _ p q hp hq
      rw [runFrames_nil] at hq
      rw [hp] at hq
      obtain rfl := Option.some_inj.mp hq
      exact ⟨le_refl _, fun h => h⟩
  | cons f fs ih =>
      intro rest st hnd hnr p q hp hq
      rw [runFrames_cons] at hq
      obtain ⟨T1, -, -⟩ := frame_transition st f t hnd
      cases h1 : lookupTrack (processDetections st f).1.tracked_people t with
      | none =>
          cases fs with
          | nil =>
              rw [runFrames_nil] at hq
              rw [h1] at hq
              exact absurd hq (by simp)
          | cons g gs =>
              have hmid := ((NoMidRemoval_cons t st f ((g :: gs) ++ rest)).mp hnr).1
              have h0 := hmid (by simp) h1
              rw [hp] at h0
              exact absurd h0 (by simp)
      | some p1 =>
          obtain ⟨-, hpres, -⟩ := T1 p1 h1
          obtain ⟨-, hmax, hlatch⟩ := hpres p hp
          have htail := ((NoMidRemoval_cons t st f (fs ++ rest)).mp hnr).2
          obtain ⟨hmax2, hlatch2⟩ := ih rest (processDetections st f).1
            (processDetections_nodup st f hnd) htail p1 q h1 hq
          exact ⟨le_trans hmax hmax2, fun h => hlatch2 (hlatch h)⟩

/-- C3: Over a track's lifetime — any sequence of frames starting before the
track is created during which it is never removed mid-sequence — the event
counts on every prefix satisfy `exits ≤ entries ≤ 1` (at most one entry, at
most one exit, and the exit only after the entry), and between any two
snapshots where the track is present `max_overlap_ratio` never decreases and
`has_been_counted` never changes from `true` back to `false`. -/
theorem C3_track_lifetime (t : ℤ) (st : ZoneTracker) (frames : List (List Det))
    (hnd : keysNodup st.tracked_people)
    (h0 : lookupTrack st.tracked_people t = none)
    (hnr : NoMidRemoval t st frames) :
    (∀ fr1 fr2, frames = fr1 ++ fr2 →
      exitsFor t (runFrames st fr1).2 ≤ entriesFor t (runFrames st fr1).2 ∧
      entriesFor t (runFrames st fr1).2 ≤ 1) ∧
    (∀ fr1 fr2 fr3, frames = fr1 ++ (fr2 ++ fr3) →
      ∀ p q, lookupTrack (runFrames st fr1).1.tracked_people t = some p →
        lookupTrack (runFrames (runFrames st fr1).1 fr2).1.tracked_people t = some q →
        p.max_overlap ≤ q.max_overlap ∧
        (p.has_been_counted = true → q.has_been_counted = true)) := by
  constructor
  · intro fr1 fr2 hsplit
    have := C3_counts_aux t frames st 0 0 hnd
      (Or.inr ⟨h0, rfl, by omega, fun _ => rfl⟩) hnr fr1 fr2 hsplit
    omega
  · intro fr1 fr2 fr3 hsplit
    subst hsplit
    exact run_present_mono t fr2 fr3 (runFrames st fr1).1
      (runFrames_nodup fr1 st hnd)
      (NoMidRemoval_drop t fr1 (fr2 ++ fr3) st hnr)

/-- C4: after each `process_detections` call, exactly the tracks whose
`last_seen` is more than 30 frames older than the current `frame_number` are
removed (undetected tracks keep their pre-call entry through the loop, and
detected tracks survive); the sweep bumps `exit_count` by the number of
removed tracks with `has_been_counted` set, decrements `live_occupancy`
clamped at `0` by exactly that number, emits exactly one exit event per such
track, and never decrements `persistent_occupancy`. -/
theorem C4_stale_sweep (st : ZoneTracker) (dets : List Det)
    (hnd : keysNodup st.tracked_people) :
    (∀ t p, lookupTrack (midState st dets).tracked_people t = some p →
      lookupTrack (processDetections st dets).1.tracked_people t
        = (if 30 < (midState st dets).frame_number - p.last_seen then none else some p)) ∧
    (∀ t, t ∉ detIds dets →
      lookupTrack (midState st dets).tracked_people t = lookupTrack st.tracked_people t) ∧
    (∀ t, t ∈ detIds dets →
      ∃ p, lookupTrack (processDetections st dets).1.tracked_people t = some p) ∧
    (processDetections st dets).1.exit_count
      = (midState st dets).exit_count
        + (staleCounted (midState st dets).frame_number
            (midState st dets).tracked_people).length ∧
    (processDetections st dets).1.current_occupancy
      = (if (staleCounted (midState st dets).frame_number
              (midState st dets).tracked_people).length = 0
         then (midState st dets).current_occupancy
         else max 0 ((midState st dets).current_occupancy
            - (staleCounted (midState st dets).frame_number
                (midState st dets).tracked_people).length)) ∧
    (∀ t, exitsFor t (processDetections st dets).2
      = (if lookupTrack (staleCounted (midState st dets).frame_number
            (midState st dets).tracked_people) t = none then 0 else 1)) ∧
    (∀ s : ZoneTracker, (sweep s).1.persistent_occupancy = s.persistent_occupancy) := by
  have hndm := midState_nodup st dets hnd
  refine ⟨?_, ?_, ?_, ?_, ?_, fun t => frame_exits st dets t hnd, fun s => (sweep_static s).2.2.2⟩
  · intro t p hp
    rw [frame_lookup st dets t hnd, hp]
    show (if isStale (midState st dets).frame_number (t, p) then none else some p) = _
    unfold isStale
    by_cases h : 30 < (midState st dets).frame_number - p.last_seen
    · rw [if_pos (by simpa using h), if_pos h]
    · rw [if_neg (by simpa using h), if_neg h]
  · intro t ht
    exact (detLoop_track t dets { st with frame_number := st.frame_number + 1 } hnd).2.2.1 ht
  · intro t ht
    obtain ⟨p', hp', hl'⟩ :=
      (detLoop_track t dets { st with frame_number := st.frame_number + 1 } hnd).2.2.2.2.2.1 ht
    refine ⟨p', ?_⟩
    rw [frame_lookup st dets t hnd]
    have hp2 : lookupTrack (midState st dets).tracked_people t = some p' := hp'
    rw [hp2]
    have : isStale (midState st dets).frame_number (t, p') = false := by
      unfold isStale
      rw [hl', midState_frame]
      simp
    simp [this]
  · rw [processDetections_fst]
    exact sweep_exit_count _
  · rw [processDetections_fst, sweep_current, foldl_clamp, List.length_map]

/-- C2: the per-zone entry rule fires — bumping `entry_count`,
`live_occupancy`, `persistent_occupancy`, setting `has_been_counted` and
emitting one entry event — exactly when `has_been_counted` is false, the
(just-updated) `max_overlap_ratio` is ≥ 0.5, the current overlap ratio with
the zone is ≥ 0.8, and `frame_count ≥ MINIMUM_ZONE_TIME` (5).  Consequently a
track whose overlap with every zone stays below 0.8 produces zero entry
events over any run regardless of frame count, and a track observed (as a
fresh track) fewer than `MINIMUM_ZONE_TIME` times produces zero entry events
even at overlap 0.9. -/
theorem C2_entry_rule :
    (∀ (fn : ℕ) (d : Det) (acc : ZAcc) (z : Zone),
      ((stepZone fn d acc z).ec = acc.ec + 1 ∧
       (stepZone fn d acc z).co = acc.co + 1 ∧
       (stepZone fn d acc z).po = acc.po + 1 ∧
       (stepZone fn d acc z).ev = acc.ev ++ [Ev.entry d.track_id z.id] ∧
       (stepZone fn d acc z).person.has_been_counted = true)
        ↔ (acc.person.has_been_counted = false ∧
           (0.5 : ℚ) ≤ max acc.person.max_overlap (overlapRatio z d.x1 d.y1 d.x2 d.y2) ∧
           (0.8 : ℚ) ≤ overlapRatio z d.x1 d.y1 d.x2 d.y2 ∧
           MINIMUM_ZONE_TIME ≤ acc.person.frame_count)) ∧
    (∀ (st : ZoneTracker) (frames : List (List Det)) (t : ℤ),
      keysNodup st.tracked_people →
      (∀ f ∈ frames, ∀ d ∈ f, d.track_id = t →
        ∀ z ∈ st.zones, overlapRatio z d.x1 d.y1 d.x2 d.y2 < 0.8) →
      entriesFor t (runFrames st frames).2 = 0) ∧
    (∀ (st : ZoneTracker) (frames : List (List Det)) (t : ℤ),
      keysNodup st.tracked_people →
      lookupTrack st.tracked_people t = none →
      (frames.map (fun f => f.countP (fun d => d.track_id = t))).sum < MINIMUM_ZONE_TIME →
      entriesFor t (runFrames st frames).2 = 0) := by
  refine ⟨?_, fun st frames t => runFrames_no08 t frames st, ?_⟩
  · intro fn d acc z
    constructor
    · intro heff
      by_contra hnf
      have hev := (stepZone_nofire fn d acc z hnf).2.2.2.1
      rw [heff.2.2.2.1] at hev
      have := congrArg List.length hev
      simp at this
    · intro hf
      exact stepZone_fire fn d acc z hf
  · intro st frames t hnd habs hsum
    refine runFrames_lowfc t frames st hnd ?_
    rw [habs]
    show 0 + _ < _
    omega

/-- Witness for C2: the hysteresis part at a zone covering half the box
(overlap 1/2 < 0.8, 40 frames), and the frame-count part for a track seen
only 4 times at overlap 0.9. -/
theorem C2_entry_rule_witness :
    entriesFor 7
      (runFrames
        (updateZonesEndpoint initTracker
          { zones := [{ id := "z1", name := "door", x1 := 0, y1 := 0, x2 := 5, y2 := 10 }],
            camera_id := "cam0" })
        (List.replicate 40
          [{ track_id := 7, x1 := 0, y1 := 0, x2 := 10, y2 := 10, confidence := 9/10 }])).2 = 0 ∧
    entriesFor 9
      (runFrames
        (updateZonesEndpoint initTracker
          { zones := [{ id := "z1", name := "door", x1 := 0, y1 := 0, x2 := 10, y2 := 10 }],
            camera_id := "cam0" })
        (List.replicate 4
          [{ track_id := 9, x1 := 0, y1 := 0, x2 := 10, y2 := 9, confidence := 9/10 }])).2 = 0 := by
  constructor
  · refine C2_entry_rule.2.1 _ _ 7 (by unfold keysNodup; simp [updateZonesEndpoint,
      update_zones, initTracker]) ?_
    intro f hf d hd hdt z hz
    rw [List.eq_of_mem_replicate hf] at hd
    rw [List.mem_singleton.mp hd]
    simp only [updateZonesEndpoint, update_zones, initTracker, setZone, List.foldl_cons,
      List.foldl_nil, List.any_nil, Bool.false_eq_true, if_false, List.nil_append,
      List.mem_singleton] at hz
    rw [hz]
    norm_num [overlapRatio, min_def, max_def]
  · refine C2_entry_rule.2.2 _ _ 9 (by unfold keysNodup; simp [updateZonesEndpoint,
      update_zones, initTracker]) rfl ?_
    simp [MINIMUM_ZONE_TIME]

/-- Witness for C4: one fresh detection processed from the initial state. -/
theorem C4_stale_sweep_witness :
    (processDetections initTracker
        [{ track_id := 3, x1 := 0, y1 := 0, x2 := 10, y2 := 10, confidence := 1/2 }]).1.exit_count
      = (midState initTracker
          [{ track_id := 3, x1 := 0, y1 := 0, x2 := 10, y2 := 10, confidence := 1/2 }]).exit_count
        + (staleCounted
            (midState initTracker
              [{ track_id := 3, x1 := 0, y1 := 0, x2 := 10, y2 := 10, confidence := 1/2 }]).frame_number
            (midState initTracker
              [{ track_id := 3, x1 := 0, y1 := 0, x2 := 10, y2 := 10, confidence := 1/2 }]).tracked_people).length :=
  (C4_stale_sweep initTracker _ (by unfold keysNodup initTracker; simp)).2.2.2.1

/-- Witness for C1 at a concrete reachable state: one zone, one fully
overlapping detection processed once from the initial state. -/
theorem C1_occupancy_invariants_witness :
    (processDetections
        (updateZonesEndpoint initTracker
          { zones := [{ id := "z1", name := "door", x1 := 0, y1 := 0, x2 := 100, y2 := 100 }],
            camera_id := "cam0" })
        [{ track_id := 7, x1 := 10, y1 := 10, x2 := 60, y2 := 60, confidence := 9/10 }]).1.persistent_occupancy
      = (processDetections
        (updateZonesEndpoint initTracker
          { zones := [{ id := "z1", name := "door", x1 := 0, y1 := 0, x2 := 100, y2 := 100 }],
            camera_id := "cam0" })
        [{ track_id := 7, x1 := 10, y1 := 10, x2 := 60, y2 := 60, confidence := 9/10 }]).1.entry_count :=
  (C1_occupancy_invariants _
    (Reach.frame _ (Reach.zones _ Reach.init))).1

/-! ### LLM cooldown-gate lemmas -/

theorem find?_eq_none_of_any_eq_false {α : Type} (p : α → Bool) :
    ∀ l : List α, l.any p = false → l.find? p = none := by
  intro l h
  rw [List.find?_eq_none]
  intro x hx hpx
  rw [List.any_eq_false] at h
  exact h x hx hpx

theorem find?_append_none {α : Type} (p : α → Bool) :
    ∀ (l l2 : List α), l.find? p = none → (l ++ l2).find? p = l2.find? p := by
  intro l l2
  induction l with
  | nil => intro _; rfl
  | cons a rest ih =>
      intro h
      by_cases hp : p a
      · rw [List.find?_cons_of_pos _ hp] at h
        exact absurd h (by simp)
      · rw [List.cons_append, List.find?_cons_of_neg _ hp]
        rw [List.find?_cons_of_neg _ hp] at h
        exact ih h

theorem find?_append_single {α : Type} (p : α → Bool) (x : α) (hx : p x = false) :
    ∀ l : List α, (l ++ [x]).find? p = l.find? p := by
  intro l
  induction l with
  | nil => simp [List.find?, hx]
  | cons a rest ih =>
      by_cases hp : p a
      · rw [List.cons_append, List.find?_cons_of_pos _ hp, List.find?_cons_of_pos _ hp]
      · rw [List.cons_append, List.find?_cons_of_neg _ hp, List.find?_cons_of_neg _ hp, ih]

theorem find?_map_replace {α β : Type} [DecidableEq α] (k : α) (v : β) :
    ∀ l : List (α × β),
      (l.map (fun p => if p.1 = k then (k, v) else p)).find? (fun p => p.1 = k)
        = if l.any (fun p => p.1 = k) then some (k, v) else none := by
  intro l
  induction l with
  | nil => simp
  | cons a rest ih =>
      by_cases ha : a.1 = k
      · simp [List.find?, ha]
      · rw [List.map_cons, if_neg ha, List.find?_cons_of_neg _ (by simp [ha]), ih,
          List.any_cons]
        have hd : decide (a.1 = k) = false := by simp [ha]
        rw [hd, Bool.false_or]

theorem find?_map_replace_ne {α β : Type} [DecidableEq α] (k k2 : α) (v : β) (h : k2 ≠ k) :
    ∀ l : List (α × β),
      (l.map (fun p => if p.1 = k then (k, v) else p)).find? (fun p => p.1 = k2)
        = l.find? (fun p => p.1 = k2) := by
  intro l
  induction l with
  | nil => rfl
  | cons a rest ih =>
      by_cases ha : a.1 = k
      · have hk : ¬ ((k : α) = k2) := fun e => h e.symm
        have ha2 : ¬ (a.1 = k2) := fun e => h (e.symm.trans ha)
        simp [List.find?, ha, hk, ha2, ih]
      · by_cases ha2 : a.1 = k2
        · simp [List.find?, ha, ha2, h]
        · simp [List.find?, ha, ha2, ih]

theorem mget_mset_self {α β : Type} [DecidableEq α] (dflt : β) (l : List (α × β))
    (k : α) (v : β) : mget dflt (mset l k v) k = v := by
  unfold mget mset
  split_ifs with h
  · rw [find?_map_replace, if_pos h]
    rfl
  · rw [find?_append_none _ l _
      (find?_eq_none_of_any_eq_false _ l (Bool.of_not_eq_true h))]
    simp [List.find?]

theorem mget_mset_ne {α β : Type} [DecidableEq α] (dflt : β) (l : List (α × β))
    (k k2 : α) (v : β) (h : k2 ≠ k) : mget dflt (mset l k v) k2 = mget dflt l k2 := by
  unfold mget mset
  split_ifs with hany
  · rw [find?_map_replace_ne k k2 v h]
  · rw [find?_append_single _ _ (by simp [Ne.symm h]) l]

theorem mget_mensure {α β : Type} [DecidableEq α] (l : List (α × β)) (k k2 : α) (d : β) :
    mget d (mensure l k d) k2 = mget d l k2 := by
  unfold mget mensure
  split_ifs with hany
  · rfl
  · by_cases hk : k2 = k
    · subst hk
      have hnone := find?_eq_none_of_any_eq_false
        (fun p : α × β => decide (p.1 = k2)) l (Bool.of_not_eq_true hany)
      rw [find?_append_none _ l _ hnone, hnone]
      simp [List.find?]
    · rw [find?_append_single _ _ (by simp [Ne.symm hk]) l]

theorem llmStep_triggered (st : LlmState) (r : LlmReq) :
    (llmStep st r).triggered = llmCall st r := rfl

theorem llmStep_trig_ledger (st : LlmState) (r : LlmReq) :
    (llmStep st r).state.llm_last_trigger
      = (if llmCall st r then mset st.llm_last_trigger (streamKeyOf r.stream_id) r.now
         else st.llm_last_trigger) := rfl

theorem llmStep_bt_ledger (st : LlmState) (r : LlmReq) :
    (llmStep st r).state.llm_last_trigger_by_track
      = (let bt1 := if llmShould0 r && (bestTrackIdOf r).isSome then
            mensure st.llm_last_trigger_by_track (streamKeyOf r.stream_id) ([] : List (ℤ × ℚ))
          else st.llm_last_trigger_by_track
         if llmCall st r then
           match bestTrackIdOf r with
           | some i => mset bt1 (streamKeyOf r.stream_id)
               (mset (mget [] bt1 (streamKeyOf r.stream_id)) i r.now)
           | none => bt1
         else bt1) := rfl

theorem llmStep_error (st : LlmState) (r : LlmReq) :
    (llmStep st r).llm_error
      = (if llmBlocked2 st r then
           some ("cooldown active: "
             ++ toString (⌊max 0 (LLM_COOLDOWN_SECONDS - (r.now - llmLastS st r))⌋ : ℤ)
             ++ "s remaining")
         else if llmBlocked1 st r then
           some ("per-track cooldown active: "
             ++ toString
                 (⌊max 0 (LLM_PER_TRACK_COOLDOWN_SECONDS - (r.now - llmTLast st r))⌋ : ℤ)
             ++ "s remaining")
         else none) := rfl

theorem llmStep_reason (st : LlmState) (r : LlmReq) :
    (llmStep st r).llm_reason
      = (if llmBlocked2 st r then
           match summaryFor "Cooldown: detected " (summaryBoxes r.s_boxes_ui r.s_boxes_all) with
           | some s => some s
           | none =>
               if llmBlocked1 st r then
                 summaryFor "Cooldown (track): detected " (summaryBoxes r.s_boxes_ui r.s_boxes_all)
               else none
         else if llmBlocked1 st r then
           summaryFor "Cooldown (track): detected " (summaryBoxes r.s_boxes_ui r.s_boxes_all)
         else none) := rfl

theorem llmCall_now_ge (st : LlmState) (r : LlmReq) (h : llmCall st r = true) :
    llmLastS st r + LLM_COOLDOWN_SECONDS ≤ r.now := by
  unfold llmCall at h
  simp only [Bool.and_eq_true, Bool.not_eq_true'] at h
  have h2 := h.1.2
  unfold llmBlocked2 at h2
  simp only [decide_eq_false_iff_not, not_lt] at h2
  linarith

theorem llmStep_stream_ge (st : LlmState) (r : LlmReq) (k : String) (t : ℚ)
    (h1 : t ≤ mget 0 st.llm_last_trigger k) (h2 : t ≤ r.now) :
    t ≤ mget 0 (llmStep st r).state.llm_last_trigger k := by
  rw [llmStep_trig_ledger]
  split_ifs with hc
  · by_cases hk : k = streamKeyOf r.stream_id
    · subst hk
      rw [mget_mset_self]
      exact h2
    · rw [mget_mset_ne _ _ _ _ _ hk]
      exact h1
  · exact h1

theorem llmRunState_ge (rs : List LlmReq) :
    ∀ (st : LlmState) (k : String) (t : ℚ),
      t ≤ mget 0 st.llm_last_trigger k → (∀ q ∈ rs, t ≤ q.now) →
      t ≤ mget 0 (llmRunState st rs).llm_last_trigger k := by
  induction rs with
  | nil => intro st k t h _; exact h
  | cons r rest ih =>
      intro st k t h hall
      show t ≤ mget 0 (llmRunState (llmStep st r).state rest).llm_last_trigger k
      exact ih (llmStep st r).state k t
        (llmStep_stream_ge st r k t h (hall r (by simp)))
        (fun q hq => hall q (by simp [hq]))

theorem llmStep_not_triggered_of_recent (st : LlmState) (r : LlmReq)
    (h : r.now - mget 0 st.llm_last_trigger (streamKeyOf r.stream_id) < LLM_COOLDOWN_SECONDS) :
    (llmStep st r).triggered = false := by
  rw [llmStep_triggered]
  unfold llmCall llmBlocked2 llmLastS
  simp [h]

theorem llmStep_writes (st : LlmState) (r : LlmReq) (h : (llmStep st r).triggered = true) :
    mget 0 (llmStep st r).state.llm_last_trigger (streamKeyOf r.stream_id) = r.now ∧
    ∀ i, bestTrackIdOf r = some i →
      mget 0 (mget [] (llmStep st r).state.llm_last_trigger_by_track
        (streamKeyOf r.stream_id)) i = r.now := by
  rw [llmStep_triggered] at h
  constructor
  · rw [llmStep_trig_ledger, if_pos h, mget_mset_self]
  · intro i hi
    rw [llmStep_bt_ledger]
    simp only [hi, h, if_true]
    rw [mget_mset_self, mget_mset_self]

theorem trackLeStream_init : TrackLeStream llmInit := by
  intro k i
  simp [llmInit, mget]

theorem trackLeStream_step (st : LlmState) (r : LlmReq) (h : TrackLeStream st) :
    TrackLeStream (llmStep st r).state := by
  intro k i
  rw [llmStep_trig_ledger, llmStep_bt_ledger]
  dsimp only
  by_cases hc : llmCall st r = true
  · rw [if_pos hc, if_pos hc]
    have hnow : mget 0 st.llm_last_trigger (streamKeyOf r.stream_id) ≤ r.now := by
      have h2 := llmCall_now_ge st r hc
      unfold llmLastS LLM_COOLDOWN_SECONDS at h2
      linarith
    have hbt1 : ∀ (c : Bool) (k2 : String), mget ([] : List (ℤ × ℚ))
        (if c then
          mensure st.llm_last_trigger_by_track (streamKeyOf r.stream_id) ([] : List (ℤ × ℚ))
        else st.llm_last_trigger_by_track) k2
        = mget [] st.llm_last_trigger_by_track k2 := by
      intro c k2
      cases c
      · rfl
      · exact mget_mensure st.llm_last_trigger_by_track _ k2 []
    by_cases hk : k = streamKeyOf r.stream_id
    · subst hk
      rw [mget_mset_self]
      cases hti : bestTrackIdOf r with
      | none =>
          dsimp only
          rw [hbt1]
          exact le_trans (h _ i) hnow
      | some j =>
          dsimp only
          rw [mget_mset_self]
          by_cases hij : i = j
          · subst hij
            rw [mget_mset_self]
          · rw [mget_mset_ne _ _ _ _ _ hij, hbt1]
            exact le_trans (h _ i) hnow
    · rw [mget_mset_ne _ _ _ _ _ hk]
      cases hti : bestTrackIdOf r with
      | none =>
          dsimp only
          rw [hbt1]
          exact h k i
      | some j =>
          dsimp only
          rw [mget_mset_ne _ _ _ _ _ hk, hbt1]
          exact h k i
  · rw [if_neg hc, if_neg hc]
    have hbt1 : ∀ (c : Bool) (k2 : String), mget ([] : List (ℤ × ℚ))
        (if c then
          mensure st.llm_last_trigger_by_track (streamKeyOf r.stream_id) ([] : List (ℤ × ℚ))
        else st.llm_last_trigger_by_track) k2
        = mget [] st.llm_last_trigger_by_track k2 := by
      intro c k2
      cases c
      · rfl
      · exact mget_mensure st.llm_last_trigger_by_track _ k2 []
    rw [hbt1]
    exact h k i

theorem llmReach_trackLeStream (st : LlmState) (h : LlmReach st) : TrackLeStream st := by
  induction h with
  | init => exact trackLeStream_init
  | step r h2 ih => exact trackLeStream_step _ r ih

theorem insertDesc_perm (b : BBox) :
    ∀ l : List BBox, List.Perm (insertDesc b l) (b :: l) := by
  intro l
  induction l with
  | nil => exact List.Perm.refl _
  | cons a rest ih =>
      unfold insertDesc
      split_ifs with hc
      · exact List.Perm.refl _
      · exact (List.Perm.cons a ih).trans (List.Perm.swap b a rest)

theorem sortByConfDesc_perm :
    ∀ l : List BBox, List.Perm (sortByConfDesc l) l := by
  intro l
  induction l with
  | nil => exact List.Perm.refl _
  | cons b rest ih =>
      exact (insertDesc_perm b (sortByConfDesc rest)).trans (List.Perm.cons b ih)

theorem insertDesc_sorted (b : BBox) :
    ∀ l : List BBox,
      List.Chain' (fun a c => c.confidence ≤ a.confidence) l →
      List.Chain' (fun a c => c.confidence ≤ a.confidence) (insertDesc b l) := by
  intro l
  induction l with
  | nil => intro _; simp [insertDesc]
  | cons a rest ih =>
      intro h
      unfold insertDesc
      split_ifs with hc
      · exact List.Chain'.cons hc h
      · have ih2 := ih h.tail
        rw [List.chain'_cons']
        refine ⟨?_, ih2⟩
        intro y hy
        cases rest with
        | nil =>
            simp [insertDesc] at hy
            exact hy ▸ le_of_not_le hc
        | cons c rest2 =>
            by_cases hc2 : c.confidence ≤ b.confidence
            · simp [insertDesc, hc2] at hy
              exact hy ▸ le_of_not_le hc
            · simp [insertDesc, hc2] at hy
              exact hy ▸ (List.chain'_cons.mp h).1

theorem sortByConfDesc_sorted :
    ∀ l : List BBox,
      List.Chain' (fun a c => c.confidence ≤ a.confidence) (sortByConfDesc l) := by
  intro l
  induction l with
  | nil => simp [sortByConfDesc]
  | cons b rest ih => exact insertDesc_sorted b (sortByConfDesc rest) ih

/-- C5: once an LLM call is attempted at time `t` for a stream — the
per-stream cooldown timestamp, and the per-track one when the candidate has a
track id, are written to `t` at attempt time; the embedding has no notion of
call success because the source writes them before issuing the HTTP request —
no later `/detect` request for the same stream key arriving within
`LLM_COOLDOWN_SECONDS` of `t` issues a second outbound LLM call, whatever
requests (at times ≥ `t`) are processed in between. -/
theorem C5_cooldown_once (st : LlmState) (r : LlmReq) (mid : List LlmReq) (r2 : LlmReq)
    (htrig : (llmStep st r).triggered = true)
    (hkey : streamKeyOf r2.stream_id = streamKeyOf r.stream_id)
    (hmid : ∀ q ∈ mid, r.now ≤ q.now)
    (hwin : r2.now - r.now < LLM_COOLDOWN_SECONDS) :
    (mget 0 (llmStep st r).state.llm_last_trigger (streamKeyOf r.stream_id) = r.now ∧
     (∀ i, bestTrackIdOf r = some i →
        mget 0 (mget [] (llmStep st r).state.llm_last_trigger_by_track
          (streamKeyOf r.stream_id)) i = r.now)) ∧
    (llmStep (llmRunState (llmStep st r).state mid) r2).triggered = false := by
  refine ⟨llmStep_writes st r htrig, ?_⟩
  apply llmStep_not_triggered_of_recent
  rw [hkey]
  have h1 : r.now ≤ mget 0 (llmRunState (llmStep st r).state mid).llm_last_trigger
      (streamKeyOf r.stream_id) :=
    llmRunState_ge mid (llmStep st r).state _ r.now
      (le_of_eq (llmStep_writes st r htrig).1.symm) hmid
  linarith

/-- Witness for C5: a call triggered at time 100 for stream "s" blocks a
second request at time 105. -/
theorem C5_cooldown_once_witness :
    (llmStep (llmRunState (llmStep llmInit
        { stream_id := some "s", now := 100, has_api_key := true, auto_on_threat := true,
          llm_enabled := false,
          s_boxes_all := [⟨0, 0, 1, 1, 1/2, some "knife", none⟩],
          s_boxes_ui := [⟨0, 0, 1, 1, 1/2, some "knife", none⟩] }).state [])
      { stream_id := some "s", now := 105, has_api_key := true, auto_on_threat := true,
        llm_enabled := false,
        s_boxes_all := [⟨0, 0, 1, 1, 1/2, some "knife", none⟩],
        s_boxes_ui := [⟨0, 0, 1, 1, 1/2, some "knife", none⟩] }).triggered = false :=
  (C5_cooldown_once llmInit
      { stream_id := some "s", now := 100, has_api_key := true, auto_on_threat := true,
        llm_enabled := false,
        s_boxes_all := [⟨0, 0, 1, 1, 1/2, some "knife", none⟩],
        s_boxes_ui := [⟨0, 0, 1, 1, 1/2, some "knife", none⟩] } []
      { stream_id := some "s", now := 105, has_api_key := true, auto_on_threat := true,
        llm_enabled := false,
        s_boxes_all := [⟨0, 0, 1, 1, 1/2, some "knife", none⟩],
        s_boxes_ui := [⟨0, 0, 1, 1, 1/2, some "knife", none⟩] }
      (by
        rw [llmStep_triggered]
        norm_num [llmCall, llmBlocked1, llmBlocked2, llmShould0, llmLastS, llmTLast,
          bestTrackIdOf, prefBoxesOf, bestCand, streamKeyOf, mget, List.find?,
          LLM_COOLDOWN_SECONDS, LLM_PER_TRACK_COOLDOWN_SECONDS])
      rfl (fun q hq => absurd hq (List.not_mem_nil q))
      (by norm_num [LLM_COOLDOWN_SECONDS])).2

/-- C6: from any reachable ledger state, whenever either cooldown gate (the
per-track or the per-stream one) blocks an otherwise-triggered LLM call (API
key present and auto/enabled on, detections nonempty), the response's
`llm_error` is exactly the per-stream string `"cooldown active: Ns remaining"`
with `N` the remaining whole seconds (the per-stream gate runs
unconditionally afterwards and overwrites the per-track message, which is
sound because per-track timestamps never exceed per-stream ones and the two
cooldown lengths are equal), no call is issued, and `llm_reason` enumerates
the top three detections by confidence — the head of a stable descending
sort, each rendered with its two-decimal confidence. -/
theorem C6_blocked_response (st : LlmState) (r : LlmReq)
    (hreach : LlmReach st)
    (hon : llmShould0 r = true)
    (hboxes : r.s_boxes_all ≠ [])
    (hblocked : perTrackBlocked st r ∨ perStreamBlocked st r) :
    (llmStep st r).triggered = false ∧
    (llmStep st r).llm_error
      = some ("cooldown active: "
          ++ toString (⌊max 0 (LLM_COOLDOWN_SECONDS
              - (r.now - mget 0 st.llm_last_trigger (streamKeyOf r.stream_id)))⌋ : ℤ)
          ++ "s remaining") ∧
    (llmStep st r).llm_reason
      = some ("Cooldown: detected "
          ++ String.intercalate ", "
              (((sortByConfDesc (summaryBoxes r.s_boxes_ui r.s_boxes_all)).take 3).map partOf)) ∧
    List.Perm (sortByConfDesc (summaryBoxes r.s_boxes_ui r.s_boxes_all))
      (summaryBoxes r.s_boxes_ui r.s_boxes_all) ∧
    List.Chain' (fun a c => c.confidence ≤ a.confidence)
      (sortByConfDesc (summaryBoxes r.s_boxes_ui r.s_boxes_all)) := by
  have hinv := llmReach_trackLeStream st hreach
  have hb2 : llmBlocked2 st r = true := by
    unfold llmBlocked2 llmLastS
    rcases hblocked with ⟨i, hi, hlt⟩ | hs
    · have hle := hinv (streamKeyOf r.stream_id) i
      simp only [decide_eq_true_eq]
      unfold LLM_COOLDOWN_SECONDS
      unfold LLM_PER_TRACK_COOLDOWN_SECONDS at hlt
      linarith
    · unfold perStreamBlocked at hs
      simpa using hs
  have hsb : summaryBoxes r.s_boxes_ui r.s_boxes_all ≠ [] := by
    unfold summaryBoxes
    split_ifs with hui
    · exact hboxes
    · rw [List.isEmpty_iff] at hui
      exact hui
  have hsort : sortByConfDesc (summaryBoxes r.s_boxes_ui r.s_boxes_all) ≠ [] := by
    intro hh
    have hp := sortByConfDesc_perm (summaryBoxes r.s_boxes_ui r.s_boxes_all)
    rw [hh] at hp
    exact hsb hp.symm.eq_nil
  refine ⟨?_, ?_, ?_, sortByConfDesc_perm _, sortByConfDesc_sorted _⟩
  · rw [llmStep_triggered]
    unfold llmCall
    rw [hb2]
    simp
  · rw [llmStep_error, if_pos hb2]
    unfold llmLastS
    rfl
  · rw [llmStep_reason, if_pos hb2]
    unfold summaryFor
    rw [if_neg]
    rw [List.isEmpty_iff, List.take_eq_nil_iff]
    push_neg
    exact ⟨by norm_num, hsort⟩

/-- Witness for C6: after a triggered call at time 100, a request at time 105
for the same stream is blocked with the per-stream message. -/
theorem C6_blocked_response_witness :
    (llmStep (llmStep llmInit
        { stream_id := some "s", now := 100, has_api_key := true, auto_on_threat := true,
          llm_enabled := false,
          s_boxes_all := [⟨0, 0, 1, 1, 17/20, some "knife", none⟩],
          s_boxes_ui := [⟨0, 0, 1, 1, 17/20, some "knife", none⟩] }).state
      { stream_id := some "s", now := 105, has_api_key := true, auto_on_threat := true,
        llm_enabled := false,
        s_boxes_all := [⟨0, 0, 1, 1, 17/20, some "knife", none⟩],
        s_boxes_ui := [⟨0, 0, 1, 1, 17/20, some "knife", none⟩] }).triggered = false :=
  (C6_blocked_response (llmStep llmInit
      { stream_id := some "s", now := 100, has_api_key := true, auto_on_threat := true,
        llm_enabled := false,
        s_boxes_all := [⟨0, 0, 1, 1, 17/20, some "knife", none⟩],
        s_boxes_ui := [⟨0, 0, 1, 1, 17/20, some "knife", none⟩] }).state
      { stream_id := some "s", now := 105, has_api_key := true, auto_on_threat := true,
        llm_enabled := false,
        s_boxes_all := [⟨0, 0, 1, 1, 17/20, some "knife", none⟩],
        s_boxes_ui := [⟨0, 0, 1, 1, 17/20, some "knife", none⟩] }
      (LlmReach.step _ LlmReach.init) rfl (by simp)
      (Or.inr (by
        unfold perStreamBlocked
        rw [llmStep_trig_ledger]
        norm_num [llmCall, llmBlocked1, llmBlocked2, llmShould0, llmLastS, llmTLast,
          bestTrackIdOf, prefBoxesOf, bestCand, streamKeyOf, mget, mset, List.find?,
          LLM_COOLDOWN_SECONDS, LLM_PER_TRACK_COOLDOWN_SECONDS]))).1

/-- Witness for C3: a single fresh detection of track 7 run from the initial
state; the prefix consisting of that one frame obeys the event-count
bounds. -/
theorem C3_track_lifetime_witness :
    exitsFor 7 (runFrames initTracker
        [[{ track_id := 7, x1 := 0, y1 := 0, x2 := 10, y2 := 10, confidence := 9/10 }]]).2
      ≤ entriesFor 7 (runFrames initTracker
        [[{ track_id := 7, x1 := 0, y1 := 0, x2 := 10, y2 := 10, confidence := 9/10 }]]).2 ∧
    entriesFor 7 (runFrames initTracker
        [[{ track_id := 7, x1 := 0, y1 := 0, x2 := 10, y2 := 10, confidence := 9/10 }]]).2 ≤ 1 :=
  (C3_track_lifetime 7 initTracker
      [[{ track_id := 7, x1 := 0, y1 := 0, x2 := 10, y2 := 10, confidence := 9/10 }]]
      (by unfold keysNodup initTracker; simp) rfl
      ⟨fun h => absurd rfl h, trivial⟩).1
    [[{ track_id := 7, x1 := 0, y1 := 0, x2 := 10, y2 := 10, confidence := 9/10 }]] [] rfl

/-! ### Associator lemmas -/

theorem stepIoU_spec (b : BBox) (acc : AssignAcc) (p : PersonT) :
    (acc.best_iou ≤ (stepIoU b acc p).best_iou ∧ iouB b p ≤ (stepIoU b acc p).best_iou) ∧
    ((stepIoU b acc p).best_pid = acc.best_pid ∧ (stepIoU b acc p).best_iou = acc.best_iou ∨
      ((stepIoU b acc p).best_pid = some p.pid ∧ (stepIoU b acc p).best_iou = iouB b p)) ∧
    (stepIoU b acc p).min_dist_sq = acc.min_dist_sq ∧
    (stepIoU b acc p).nearest_pid = acc.nearest_pid := by
  unfold stepIoU
  split_ifs with h
  · exact ⟨⟨le_of_lt h, le_refl _⟩, Or.inr ⟨rfl, rfl⟩, rfl, rfl⟩
  · exact ⟨⟨le_refl _, le_of_not_lt h⟩, Or.inl ⟨rfl, rfl⟩, rfl, rfl⟩

theorem stepDist_spec (b : BBox) (acc : AssignAcc) (p : PersonT) :
    (stepDist b acc p).best_iou = acc.best_iou ∧
    (stepDist b acc p).best_pid = acc.best_pid ∧
    (∀ m, acc.min_dist_sq = some m →
      ∃ m2, (stepDist b acc p).min_dist_sq = some m2 ∧ m2 ≤ m) ∧
    (∃ m2, (stepDist b acc p).min_dist_sq = some m2 ∧ m2 ≤ distSqB b p) ∧
    ((stepDist b acc p).min_dist_sq = acc.min_dist_sq ∧
       (stepDist b acc p).nearest_pid = acc.nearest_pid ∨
     ((stepDist b acc p).nearest_pid = some p.pid ∧
       (stepDist b acc p).min_dist_sq = some (distSqB b p))) := by
  unfold stepDist
  cases hm : acc.min_dist_sq with
  | none =>
      refine ⟨rfl, rfl, ?_, ⟨distSqB b p, rfl, le_refl _⟩, Or.inr ⟨rfl, rfl⟩⟩
      intro m h
      exact absurd h (by simp)
  | some m0 =>
      dsimp only
      split_ifs with h
      · refine ⟨rfl, rfl, ?_, ⟨distSqB b p, rfl, le_refl _⟩, Or.inr ⟨rfl, rfl⟩⟩
        intro m h2
        obtain rfl := Option.some_inj.mp h2
        exact ⟨distSqB b p, rfl, le_of_lt h⟩
      · refine ⟨rfl, rfl, ?_, ⟨m0, hm, le_of_not_lt h⟩, Or.inl ⟨hm, rfl⟩⟩
        intro m h2
        obtain rfl := Option.some_inj.mp h2
        exact ⟨m0, hm, le_refl _⟩

theorem assignFold_spec (b : BBox) :
    ∀ (ps : List PersonT) (acc : AssignAcc),
      acc.best_iou ≤ (ps.foldl (assignStep b) acc).best_iou ∧
      (∀ q ∈ ps, iouB b q ≤ (ps.foldl (assignStep b) acc).best_iou) ∧
      ((ps.foldl (assignStep b) acc).best_pid = acc.best_pid ∧
        (ps.foldl (assignStep b) acc).best_iou = acc.best_iou ∨
       (∃ p ∈ ps, (ps.foldl (assignStep b) acc).best_pid = some p.pid ∧
         (ps.foldl (assignStep b) acc).best_iou = iouB b p)) ∧
      (∀ m, acc.min_dist_sq = some m →
        ∃ m2, (ps.foldl (assignStep b) acc).min_dist_sq = some m2 ∧ m2 ≤ m) ∧
      (∀ q ∈ ps, ∃ m2, (ps.foldl (assignStep b) acc).min_dist_sq = some m2 ∧
        m2 ≤ distSqB b q) ∧
      ((ps.foldl (assignStep b) acc).min_dist_sq = acc.min_dist_sq ∧
        (ps.foldl (assignStep b) acc).nearest_pid = acc.nearest_pid ∨
       (∃ p ∈ ps, (ps.foldl (assignStep b) acc).nearest_pid = some p.pid ∧
         (ps.foldl (assignStep b) acc).min_dist_sq = some (distSqB b p))) := by
  intro ps
  induction ps with
  | nil =>
      intro acc
      refine ⟨le_refl _, by simp, Or.inl ⟨rfl, rfl⟩, ?_, by simp, Or.inl ⟨rfl, rfl⟩⟩
      intro m h
      exact ⟨m, h, le_refl _⟩
  | cons p ps' ih =>
      intro acc
      simp only [List.foldl_cons]
      obtain ⟨⟨si1, si2⟩, si3, si4, si5⟩ := stepIoU_spec b acc p
      obtain ⟨sd1, sd2, sd3, sd4, sd5⟩ := stepDist_spec b (stepIoU b acc p) p
      obtain ⟨iA1, iA2, iA3, iD1, iD2, iD3⟩ := ih (assignStep b acc p)
      have hstep_iou_lo : acc.best_iou ≤ (assignStep b acc p).best_iou := by
        unfold assignStep
        rw [sd1]
        exact si1
      have hstep_iou_p : iouB b p ≤ (assignStep b acc p).best_iou := by
        unfold assignStep
        rw [sd1]
        exact si2
      have hstep_min : ∀ m, acc.min_dist_sq = some m →
          ∃ m2, (assignStep b acc p).min_dist_sq = some m2 ∧ m2 ≤ m := by
        unfold assignStep
        rw [si4] at sd3
        exact sd3
      have hstep_min_p : ∃ m2, (assignStep b acc p).min_dist_sq = some m2 ∧
          m2 ≤ distSqB b p := sd4
      refine ⟨le_trans hstep_iou_lo iA1, ?_, ?_, ?_, ?_, ?_⟩
      · intro q hq
        rcases List.mem_cons.mp hq with rfl | hq'
        · exact le_trans hstep_iou_p iA1
        · exact iA2 q hq'
      · rcases iA3 with ⟨e1, e2⟩ | ⟨p2, hp2, e1, e2⟩
        · have sb : (assignStep b acc p).best_pid = (stepIoU b acc p).best_pid := sd2
          have sb2 : (assignStep b acc p).best_iou = (stepIoU b acc p).best_iou := sd1
          rcases si3 with ⟨f1, f2⟩ | ⟨f1, f2⟩
          · exact Or.inl ⟨by rw [e1, sb, f1], by rw [e2, sb2, f2]⟩
          · exact Or.inr ⟨p, List.mem_cons_self p ps', by rw [e1, sb, f1], by rw [e2, sb2, f2]⟩
        · exact Or.inr ⟨p2, List.mem_cons_of_mem p hp2, e1, e2⟩
      · intro m hm
        obtain ⟨m2, hm2, hle2⟩ := hstep_min m hm
        obtain ⟨m3, hm3, hle3⟩ := iD1 m2 hm2
        exact ⟨m3, hm3, le_trans hle3 hle2⟩
      · intro q hq
        rcases List.mem_cons.mp hq with rfl | hq'
        · obtain ⟨m2, hm2, hle2⟩ := hstep_min_p
          obtain ⟨m3, hm3, hle3⟩ := iD1 m2 hm2
          exact ⟨m3, hm3, le_trans hle3 hle2⟩
        · exact iD2 q hq'
      · have sd5p : ((assignStep b acc p).min_dist_sq = (stepIoU b acc p).min_dist_sq ∧
            (assignStep b acc p).nearest_pid = (stepIoU b acc p).nearest_pid) ∨
            ((assignStep b acc p).nearest_pid = some p.pid ∧
             (assignStep b acc p).min_dist_sq = some (distSqB b p)) := sd5
        rcases iD3 with ⟨e1, e2⟩ | ⟨p2, hp2, e1, e2⟩
        · rcases sd5p with ⟨f1, f2⟩ | ⟨f1, f2⟩
          · exact Or.inl ⟨by rw [e1, f1]; exact si4, by rw [e2, f2]; exact si5⟩
          · exact Or.inr ⟨p, List.mem_cons_self p ps', by rw [e2]; exact f1, by rw [e1]; exact f2⟩
        · exact Or.inr ⟨p2, List.mem_cons_of_mem p hp2, e1, e2⟩

/-- C8: `assign_track` resolves a suspicious box to a person track as
specified — when some person's IoU with the box reaches
`THREAT_ASSOC_IOU_MIN`, the box gets the id of a highest-IoU person; when no
IoU qualifies, it gets the nearest center's id exactly when that (squared)
distance is within the (squared) `THREAT_ASSOC_MAX_DIST_FRAC` fraction of the
frame diagonal, and no id when `persons` is empty; and a box whose IoU with
exactly one person qualifies receives that person's id. -/
theorem C8_association (b : BBox) (persons : List PersonT) (w h : ℚ) :
    ((∃ p ∈ persons, THREAT_ASSOC_IOU_MIN ≤ iouB b p) →
      ∃ p ∈ persons, assign_track b persons w h = some p.pid ∧
        THREAT_ASSOC_IOU_MIN ≤ iouB b p ∧
        ∀ q ∈ persons, iouB b q ≤ iouB b p) ∧
    ((∀ q ∈ persons, iouB b q < THREAT_ASSOC_IOU_MIN) →
      (persons = [] → assign_track b persons w h = none) ∧
      (persons ≠ [] →
        ∃ p ∈ persons,
          (∀ q ∈ persons, distSqB b p ≤ distSqB b q) ∧
          assign_track b persons w h
            = (if distSqB b p ≤ THREAT_ASSOC_MAX_DIST_FRAC ^ 2 * (w ^ 2 + h ^ 2)
               then some p.pid else none))) ∧
    (∀ p ∈ persons, THREAT_ASSOC_IOU_MIN ≤ iouB b p →
      (∀ q ∈ persons, THREAT_ASSOC_IOU_MIN ≤ iouB b q → q = p) →
      assign_track b persons w h = some p.pid) := by
  obtain ⟨hA1, hA2, hA3, hD1, hD2, hD3⟩ := assignFold_spec b persons assignInit
  have harg : (∃ p ∈ persons, THREAT_ASSOC_IOU_MIN ≤ iouB b p) →
      ∃ p ∈ persons, assign_track b persons w h = some p.pid ∧
        THREAT_ASSOC_IOU_MIN ≤ iouB b p ∧
        ∀ q ∈ persons, iouB b q ≤ iouB b p := by
    rintro ⟨p0, hp0, hthr⟩
    have hbig : THREAT_ASSOC_IOU_MIN ≤
        (persons.foldl (assignStep b) assignInit).best_iou :=
      le_trans hthr (hA2 p0 hp0)
    rcases hA3 with ⟨e1, e2⟩ | ⟨p, hp, e1, e2⟩
    · rw [e2] at hbig
      norm_num [THREAT_ASSOC_IOU_MIN, assignInit] at hbig
    · refine ⟨p, hp, ?_, by rw [← e2]; exact hbig, fun q hq => by rw [← e2]; exact hA2 q hq⟩
      unfold assign_track
      rw [if_pos]
      · exact e1
      · rw [e1]
        simp only [Option.isSome_some, Bool.true_and, decide_eq_true_eq]
        exact hbig
  refine ⟨harg, ?_, ?_⟩
  · intro hlow
    constructor
    · rintro rfl
      rfl
    · intro hne
      have hcond : ((persons.foldl (assignStep b) assignInit).best_pid.isSome
          && decide (THREAT_ASSOC_IOU_MIN ≤
            (persons.foldl (assignStep b) assignInit).best_iou)) = false := by
        rcases hA3 with ⟨e1, e2⟩ | ⟨p, hp, e1, e2⟩
        · rw [e1]
          rfl
        · rw [e2]
          have hdec : decide (THREAT_ASSOC_IOU_MIN ≤ iouB b p) = false := by
            simp only [decide_eq_false_iff_not, not_le]
            exact hlow p hp
          rw [hdec, Bool.and_false]
      rcases hD3 with ⟨e1, e2⟩ | ⟨p, hp, e1, e2⟩
      · obtain ⟨q0, hq0⟩ := List.exists_mem_of_ne_nil persons hne
        obtain ⟨m2, hm2, -⟩ := hD2 q0 hq0
        rw [e1] at hm2
        exact absurd hm2 (by simp [assignInit])
      · refine ⟨p, hp, ?_, ?_⟩
        · intro q hq
          obtain ⟨m2, hm2, hle2⟩ := hD2 q hq
          rw [e2] at hm2
          obtain rfl := Option.some_inj.mp hm2.symm
          exact hle2
        · unfold assign_track
          rw [if_neg (by rw [hcond]; exact fun hh => absurd hh (by simp)), e1, e2]
  · intro p hp hthr huniq
    obtain ⟨p2, hp2, hres, hthr2, -⟩ := harg ⟨p, hp, hthr⟩
    rw [huniq p2 hp2 hthr2] at hres
    exact hres

/-- Witness for C8: a single fully overlapping person box gets assigned. -/
theorem C8_association_witness :
    assign_track ⟨0, 0, 10, 10, 1/2, some "knife", none⟩
      [⟨5, 0, 0, 10, 10⟩] 100 100 = some 5 :=
  (C8_association _ _ 100 100).2.2 ⟨5, 0, 0, 10, 10⟩
    (List.mem_singleton.mpr rfl)
    (by norm_num [iouB, iouXY, THREAT_ASSOC_IOU_MIN, min_def, max_def])
    (fun q hq _ => List.mem_singleton.mp hq)

/-- Counterexample to C7 as stated: at tolerance τ = 1 with box and zone
disjoint, the ratio-comparison definition from the spec's words returns
`true` (the ratio 0 meets the required overlap 1 − 1 = 0) while the code's
early disjointness return gives `false`, so the claimed equivalence fails. -/
theorem C7_tolerance_counterexample :
    personInZoneSpecWords
      { id := "z1", name := "door", x1 := 0, y1 := 0, x2 := 1, y2 := 1, camera_id := "c" }
      2 2 3 3 1 = true ∧
    person_in_zone_with_tolerance
      { id := "z1", name := "door", x1 := 0, y1 := 0, x2 := 1, y2 := 1, camera_id := "c" }
      2 2 3 3 1 = false := by
  constructor
  · norm_num [personInZoneSpecWords, overlapRatio, min_def, max_def]
  · norm_num [person_in_zone_with_tolerance, min_def, max_def]

/-- C7 (amended): for every zone, box and tolerance τ < 1, the code agrees
with the spec's ratio comparison — `person_in_zone_with_tolerance` is `true`
exactly when the overlap ratio is ≥ 1 − τ — and the overlap ratio is 0
whenever the intersection is empty or the box area is degenerate (≤ 0).  The
restriction τ < 1 removes the edge case of the counterexample, where the
code's early disjointness return contradicts the ratio comparison. -/
theorem C7_overlap_tolerance_amended (z : Zone) (x1 y1 x2 y2 t : ℚ) (ht : t < 1) :
    person_in_zone_with_tolerance z x1 y1 x2 y2 t = personInZoneSpecWords z x1 y1 x2 y2 t ∧
    (person_in_zone_with_tolerance z x1 y1 x2 y2 t = true ↔
      1 - t ≤ overlapRatio z x1 y1 x2 y2) ∧
    ((min x2 (max z.x1 z.x2) ≤ max x1 (min z.x1 z.x2) ∨
      min y2 (max z.y1 z.y2) ≤ max y1 (min z.y1 z.y2)) →
        overlapRatio z x1 y1 x2 y2 = 0) ∧
    ((x2 - x1) * (y2 - y1) ≤ 0 → overlapRatio z x1 y1 x2 y2 = 0) := by
  have hiff : person_in_zone_with_tolerance z x1 y1 x2 y2 t = true ↔
      1 - t ≤ overlapRatio z x1 y1 x2 y2 := by
    unfold person_in_zone_with_tolerance overlapRatio
    dsimp only
    split_ifs with h h2
    · simp only [Bool.false_eq_true, false_iff, not_le]
      linarith
    · simp
    · simp
  refine ⟨?_, hiff, ?_, ?_⟩
  · rw [Bool.eq_iff_iff, hiff]
    unfold personInZoneSpecWords
    simp
  · intro h
    unfold overlapRatio
    dsimp only
    rw [if_pos h]
  · intro h
    unfold overlapRatio
    dsimp only
    split_ifs with h1 h2
    · rfl
    · linarith
    · rfl

/-- Witness for the amended C7: a fully contained box at the default
tolerance 0.2. -/
theorem C7_overlap_tolerance_amended_witness :
    (person_in_zone_with_tolerance
        { id := "z1", name := "door", x1 := 0, y1 := 0, x2 := 10, y2 := 10, camera_id := "c" }
        0 0 10 10 (1/5) = true ↔
      1 - (1/5 : ℚ) ≤ overlapRatio
        { id := "z1", name := "door", x1 := 0, y1 := 0, x2 := 10, y2 := 10, camera_id := "c" }
        0 0 10 10) :=
  (C7_overlap_tolerance_amended
    { id := "z1", name := "door", x1 := 0, y1 := 0, x2 := 10, y2 := 10, camera_id := "c" }
    0 0 10 10 (1/5) (by norm_num)).2.1

/-- C9: when the request's `image_data` fails to decode (the raw decoding
oracle raises), `/detect` responds `HTTP 500` with a detail string that is
exactly `"Detection failed: "` followed by the decoder's
`"Failed to decode image: …"` message — in particular it begins with
`"Detection failed: "` — and the entire counting state is returned
unchanged. -/
theorem C9_decode_failure {Img : Type} (raw : String → Except String Img)
    (infer : Img → List Det) (st : ZoneTracker) (image_data : String) (e0 : String)
    (hfail : raw (dataUrlStrip image_data) = Except.error e0) :
    (detect_people raw infer st image_data).2 = st ∧
    (detect_people raw infer st image_data).1
      = Except.error (500, "Detection failed: " ++ ("Failed to decode image: " ++ e0)) ∧
    ∃ rest, (detect_people raw infer st image_data).1
      = Except.error (500, "Detection failed: " ++ rest) := by
  have hdec : decode_base64_image raw image_data
      = Except.error ("Failed to decode image: " ++ e0) := by
    unfold decode_base64_image
    rw [hfail]
  unfold detect_people
  rw [hdec]
  exact ⟨rfl, rfl, "Failed to decode image: " ++ e0, rfl⟩

/-- Witness for C9: a decoder that always raises leaves the initial state in
place. -/
theorem C9_decode_failure_witness :
    (detect_people (fun _ => (Except.error "bad base64" : Except String Unit))
        (fun _ => []) initTracker "data:image/jpeg;base64,xyz").2 = initTracker :=
  (C9_decode_failure (fun _ => (Except.error "bad base64" : Except String Unit))
    (fun _ => []) initTracker "data:image/jpeg;base64,xyz" "bad base64" rfl).1

/-- C10: zone storage is camera-agnostic — `GET /zones/{camera_id}` returns
the same zone list and count for every camera id (the path parameter is only
echoed), and `POST /zones/update` replaces the single global zone set from
the request's zone records alone: neither the request's `camera_id` nor the
previous state's zones influence the stored result. -/
theorem C10_zones_camera_agnostic (st st2 : ZoneTracker) (c1 c2 : String)
    (req req2 : ZoneUpdateRequest) :
    (getZones st c1).zones = (getZones st c2).zones ∧
    (getZones st c1).zones_count = (getZones st c2).zones_count ∧
    (getZones st c1).camera_id = c1 ∧
    (req.zones = req2.zones →
      (updateZonesEndpoint st req).zones = (updateZonesEndpoint st2 req2).zones) ∧
    (getZones (updateZonesEndpoint st req) c1).zones
      = (getZones (updateZonesEndpoint st2 req) c2).zones := by
  refine ⟨rfl, rfl, rfl, ?_, ?_⟩
  · intro h
    unfold updateZonesEndpoint update_zones
    rw [h]
  · unfold getZones updateZonesEndpoint update_zones
    rfl

/-- Witness for C10: the same zone record posted with two different camera
ids yields the same stored zones. -/
theorem C10_zones_camera_agnostic_witness :
    (updateZonesEndpoint initTracker
      ⟨[⟨"z1", "door", 0, 0, 5, 10, none⟩], "cam1"⟩).zones
      = (updateZonesEndpoint initTracker
        ⟨[⟨"z1", "door", 0, 0, 5, 10, none⟩], "cam2"⟩).zones :=
  (C10_zones_camera_agnostic initTracker initTracker "cam1" "cam2"
    ⟨[⟨"z1", "door", 0, 0, 5, 10, none⟩], "cam1"⟩
    ⟨[⟨"z1", "door", 0, 0, 5, 10, none⟩], "cam2"⟩).2.2.2.1 rfl

end Vista
